import Mathlib

/-!
Verification development for the HTTP/1.x message codec of the brpc
repository (`src/brpc/details/http_message.h`).

The repository ships the class declaration `HttpMessage` together with the
serializer entry points `MakeRawHttpRequest` / `MakeRawHttpResponse`; the
translation below embeds that interface as pure Lean functions.  The member
function bodies (`http_message.cpp`) are not part of the visible sources, so
every operation is modelled from the specification text, faithful to its
words: the byte-stream parser is a byte-by-byte state machine driven the way
the spec describes the tokenizer callbacks (section 4.2), the progressive
hand-off follows section 4.3, and the raw serializer follows section 4.4.
Bytes are modelled as `Char` lists, the zero-copy IOBuf as a `List Char`
(segmented variant: `List (List Char)`), and the streaming consumer
(`ProgressiveReader`) as a scripted state machine recording the bytes it
accepted.
-/

namespace Brpc

def str (s : String) : List Char := s.data

def crlf : List Char := ['\r', '\n']

/-- The `HttpParserStage` enumeration of `http_message.h` (lines 35-44). -/
inductive HttpParserStage
  | messageBegin | url | status | headerField | headerValue
  | headersComplete | body | messageComplete
deriving DecidableEq, Repr

/-- Modelled from the spec: the external streaming consumer
(`ProgressiveReader`, whose definition is outside the visible sources).  It
exposes accept-a-chunk (success/failure) and signal-end (section 6).  The
success/failure answers are a pre-arranged script: each feed call pops one
answer (an empty script means accept); `received` records the bytes the
reader has accepted, `sawEnd` whether end-of-body was signalled. -/
structure ProgressiveReader where
  received : List Char
  script : List Bool
  sawEnd : Bool
deriving DecidableEq, Repr

/-- One accept-a-chunk call on the reader: returns the new reader state and
whether the call reported success. -/
def readerFeed (r : ProgressiveReader) (data : List Char) : ProgressiveReader × Bool :=
  match r.script with
  | [] => ({ r with received := r.received ++ data }, true)
  | b :: rest =>
    if b then ({ r with received := r.received ++ data, script := rest }, true)
    else ({ r with script := rest }, false)

/-- The signal-end operation of the reader. -/
def readerEnd (r : ProgressiveReader) : ProgressiveReader := { r with sawEnd := true }

/-- The Header Model (spec section 4.1): method, URL, status and an ordered,
case-insensitively keyed, multi-valued field mapping. -/
structure HttpHeader where
  method : List Char
  uri : List Char
  statusCode : Nat
  fields : List (List Char × List Char)
deriving DecidableEq, Repr

def lowerEq (a b : List Char) : Bool := a.map Char.toLower == b.map Char.toLower

/-- Case-insensitive lookup of the first field with the given name. -/
def findHeader (fs : List (List Char × List Char)) (name : List Char) : Option (List Char) :=
  match fs with
  | [] => none
  | (n, v) :: rest => if lowerEq n name then some v else findHeader rest name

/-- Micro-state of the byte-by-byte tokenizer (the position inside the
HTTP/1.x grammar between two bytes). -/
inductive PS
  | methTok | reqUrl | reqVer | respVer | respCode | respReason
  | lineLF | hdrStart | hdrField | hdrOWS | hdrValue | hdrCR | finalLF
  | bodyCL | bodyEof | chunkSize | chunkSizeLF | bodyChunk | chunkCR | chunkLF
  | trailCR | trailLF | done
deriving DecidableEq, Repr

/-- How the body length is framed, decided when headers complete. -/
inductive BodyFraming
  | unset | contentLength | untilEof | chunked
deriving DecidableEq, Repr

/-- The state of one in-flight `HttpMessage` (spec section 3).  Fields mirror
the private members of the class declaration: `stage`/`_stage`, `err` (the
tokenizer error flag), `parsedLength`/`_parsed_length`, `header`/`_header`,
`curHeader`/`_cur_header`, `curValue`/`_cur_value`, `body`/`_body`,
`bodyReader`/`_body_reader`.  `delivered`, `produced`, `feedFailed`,
`detachedReaders` and `destroyedReaders` are ghost fields recording the body
bytes ever produced by the parser, the bytes delivered to readers, whether a
feed-to-reader call has ever failed, and the final states of readers that
were detached or destroyed. -/
structure HttpMessage where
  stage : HttpParserStage
  ps : PS
  err : Bool
  parsedLength : Nat
  header : HttpHeader
  isResponse : Bool
  acc : List Char
  curHeader : List Char
  curValue : Option (List Char)
  framing : BodyFraming
  bodyRemaining : Nat
  chunkAcc : Nat
  body : List Char
  bodyReader : Option ProgressiveReader
  delivered : List Char
  produced : List Char
  feedFailed : Bool
  detachedReaders : List ProgressiveReader
  destroyedReaders : List ProgressiveReader
deriving DecidableEq, Repr

/-- A freshly constructed message (`HttpMessage::HttpMessage`). -/
def initMsg : HttpMessage :=
  { stage := .messageBegin, ps := .methTok, err := false, parsedLength := 0,
    header := { method := [], uri := [], statusCode := 0, fields := [] },
    isResponse := false, acc := [], curHeader := [], curValue := none,
    framing := .unset, bodyRemaining := 0, chunkAcc := 0, body := [],
    bodyReader := none, delivered := [], produced := [], feedFailed := false,
    detachedReaders := [], destroyedReaders := [] }

def isMethodChar (c : Char) : Bool := c.isUpper
def isUrlChar (c : Char) : Bool := !(c == ' ' || c == '\r' || c == '\n')
def isVerChar (c : Char) : Bool := !(c == '\r' || c == '\n')
def isFieldNameChar (c : Char) : Bool := c.isAlphanum || c == '-' || c == '_'
def isValueChar (c : Char) : Bool := !(c == '\r' || c == '\n')
def isHexChar (c : Char) : Bool :=
  c.isDigit || ('a' ≤ c && c ≤ 'f') || ('A' ≤ c && c ≤ 'F')

def digitVal (c : Char) : Nat := c.toNat - 48

def hexVal (c : Char) : Nat :=
  if c.isDigit then c.toNat - 48
  else if 'a' ≤ c then c.toNat - 87
  else c.toNat - 55

def digitsValFrom (a : Nat) (l : List Char) : Nat :=
  l.foldl (fun a c => a * 10 + digitVal c) a

def digitsVal (l : List Char) : Nat := digitsValFrom 0 l

/-- Strict decimal reading of a header value (used for `Content-Length`). -/
def digitsToNat (l : List Char) : Option Nat :=
  if !l.isEmpty && l.all Char.isDigit then some (digitsVal l) else none

/-- Commit the pending field:value pair into the Header Model — the
"pending name, committed on next" pairing rule of spec section 4.2. -/
def commitPending (m : HttpMessage) : HttpMessage :=
  match m.curValue with
  | none => m
  | some v =>
    { m with header := { m.header with fields := m.header.fields ++ [(m.curHeader, v)] },
             curHeader := [], curValue := none }

/-- Modelled from the spec: `HttpMessage::OnBody` (`feedBody` of spec section
4.3; body of `http_message.cpp` is not in the sources).  If a reader is
attached the bytes are delivered directly to it, otherwise they are appended
to the body buffer.  A failed delivery detaches the reader and reports
failure (`false`), to be propagated as a message-level parse failure. -/
def OnBody (m : HttpMessage) (data : List Char) : HttpMessage × Bool :=
  match m.bodyReader with
  | none => ({ m with body := m.body ++ data, produced := m.produced ++ data }, true)
  | some r =>
    match readerFeed r data with
    | (r', true) =>
      ({ m with bodyReader := some r', delivered := m.delivered ++ data,
                produced := m.produced ++ data }, true)
    | (r', false) =>
      ({ m with bodyReader := none, feedFailed := true,
                produced := m.produced ++ data,
                detachedReaders := m.detachedReaders ++ [r'] }, false)

/-- Modelled from the spec: `HttpMessage::OnMessageComplete` (terminal
callback, spec section 4.2): any attached reader is notified of end-of-body
and detached; the stage advances to Complete. -/
def OnMessageComplete (m : HttpMessage) : HttpMessage :=
  match m.bodyReader with
  | none => { m with stage := .messageComplete, ps := .done }
  | some r =>
    { m with stage := .messageComplete, ps := .done, bodyReader := none,
             detachedReaders := m.detachedReaders ++ [readerEnd r] }

/-- Modelled from the spec: the headers-complete transition (spec section
4.2): the pending pair is committed, then the body framing is decided from
the committed fields (`Transfer-Encoding: chunked`, else `Content-Length`,
else until-EOF for responses and no body for requests). -/
def onHeadersDone (m : HttpMessage) : HttpMessage :=
  let m2 := { commitPending m with stage := .headersComplete }
  match findHeader m2.header.fields (str "transfer-encoding") with
  | some te =>
    if lowerEq te (str "chunked") then
      { m2 with framing := .chunked, ps := .chunkSize, chunkAcc := 0 }
    else { m2 with err := true }
  | none =>
    match findHeader m2.header.fields (str "content-length") with
    | some v =>
      match digitsToNat v with
      | some 0 => OnMessageComplete { m2 with framing := .contentLength }
      | some n => { m2 with framing := .contentLength, bodyRemaining := n, ps := .bodyCL }
      | none => { m2 with err := true }
    | none =>
      if m2.isResponse then { m2 with framing := .untilEof, ps := .bodyEof }
      else OnMessageComplete { m2 with framing := .unset }

/-- Modelled from the spec: one byte of the tokenizer-driven state machine of
spec section 4.2 (the `http_parser` collaborator and the callback bodies are
not in the sources).  Start line, alternating header field/value lines with
scratch accumulation, blank line, then a content-length, until-EOF or
chunked body whose bytes go through `OnBody`. -/
def stepCore (m : HttpMessage) (c : Char) : HttpMessage :=
  match m.ps with
  | .methTok =>
    if c == ' ' then
      if m.acc.isEmpty then { m with err := true }
      else { m with header := { m.header with method := m.acc }, acc := [],
                    ps := .reqUrl, stage := .url }
    else if c == '/' && m.acc == str "HTTP" then
      { m with isResponse := true, acc := [], ps := .respVer }
    else if isMethodChar c then { m with acc := m.acc ++ [c] }
    else { m with err := true }
  | .reqUrl =>
    if c == ' ' then
      { m with header := { m.header with uri := m.acc }, acc := [], ps := .reqVer }
    else if isUrlChar c then { m with acc := m.acc ++ [c] }
    else { m with err := true }
  | .reqVer =>
    if c == '\r' then { m with ps := .lineLF }
    else if isVerChar c then m
    else { m with err := true }
  | .respVer =>
    if c == ' ' then { m with ps := .respCode }
    else if isVerChar c then m
    else { m with err := true }
  | .respCode =>
    if c.isDigit then
      { m with header := { m.header with statusCode := m.header.statusCode * 10 + digitVal c } }
    else if c == ' ' then { m with ps := .respReason, stage := .status }
    else if c == '\r' then { m with ps := .lineLF, stage := .status }
    else { m with err := true }
  | .respReason =>
    if c == '\r' then { m with ps := .lineLF }
    else if isValueChar c then m
    else { m with err := true }
  | .lineLF =>
    if c == '\n' then { m with ps := .hdrStart }
    else { m with err := true }
  | .hdrStart =>
    if c == '\r' then { m with ps := .finalLF }
    else if isFieldNameChar c then
      { commitPending m with ps := .hdrField, stage := .headerField, curHeader := [c] }
    else { m with err := true }
  | .hdrField =>
    if c == ':' then { m with ps := .hdrOWS, stage := .headerValue }
    else if isFieldNameChar c then { m with curHeader := m.curHeader ++ [c] }
    else { m with err := true }
  | .hdrOWS =>
    if c == ' ' then m
    else if c == '\r' then { m with curValue := some [], ps := .hdrCR }
    else if isValueChar c then { m with curValue := some [c], ps := .hdrValue }
    else { m with err := true }
  | .hdrValue =>
    if c == '\r' then { m with ps := .hdrCR }
    else if isValueChar c then { m with curValue := some ((m.curValue.getD []) ++ [c]) }
    else { m with err := true }
  | .hdrCR =>
    if c == '\n' then { m with ps := .hdrStart }
    else { m with err := true }
  | .finalLF =>
    if c == '\n' then onHeadersDone m
    else { m with err := true }
  | .bodyCL =>
    match m.bodyRemaining with
    | 0 => { m with err := true }
    | k + 1 =>
      let p := OnBody { m with stage := .body, bodyRemaining := k } [c]
      if p.2 then (if k == 0 then OnMessageComplete p.1 else p.1)
      else { p.1 with err := true }
  | .bodyEof =>
    let p := OnBody { m with stage := .body } [c]
    if p.2 then p.1 else { p.1 with err := true }
  | .chunkSize =>
    if isHexChar c then { m with chunkAcc := m.chunkAcc * 16 + hexVal c }
    else if c == '\r' then { m with ps := .chunkSizeLF }
    else { m with err := true }
  | .chunkSizeLF =>
    if c == '\n' then
      if m.chunkAcc == 0 then { m with ps := .trailCR }
      else { m with ps := .bodyChunk, bodyRemaining := m.chunkAcc, chunkAcc := 0 }
    else { m with err := true }
  | .bodyChunk =>
    match m.bodyRemaining with
    | 0 => { m with err := true }
    | k + 1 =>
      let p := OnBody { m with stage := .body, bodyRemaining := k,
                               ps := if k == 0 then .chunkCR else .bodyChunk } [c]
      if p.2 then p.1 else { p.1 with err := true }
  | .chunkCR =>
    if c == '\r' then { m with ps := .chunkLF }
    else { m with err := true }
  | .chunkLF =>
    if c == '\n' then { m with ps := .chunkSize, chunkAcc := 0 }
    else { m with err := true }
  | .trailCR =>
    if c == '\r' then { m with ps := .trailLF }
    else { m with err := true }
  | .trailLF =>
    if c == '\n' then OnMessageComplete m
    else { m with err := true }
  | .done => { m with err := true }

/-- One byte fed to the tokenizer; a message whose tokenizer has already
failed accepts no further bytes (failure policy, spec section 4.2). -/
def stepByte (m : HttpMessage) (c : Char) : HttpMessage :=
  if m.err then m else stepCore m c

def runBytes (m : HttpMessage) (l : List Char) : HttpMessage := l.foldl stepByte m

/-- Modelled from the spec: the end-of-input signal (an empty range, spec
sections 4.2 and 7): it finalizes a length-less connection-close-terminated
body, is accepted before any byte has arrived, and is an error in any other
incomplete position. -/
def feedEof (m : HttpMessage) : HttpMessage × Option Nat :=
  match m.ps with
  | .bodyEof => (OnMessageComplete m, some 0)
  | .methTok => if m.acc.isEmpty then (m, some 0) else ({ m with err := true }, none)
  | _ => ({ m with err := true }, none)

/-- Modelled from the spec: `HttpMessage::ParseFromArray` (`http_message.h`
lines 57-59; body not in the sources).  Length 0 is treated as EOF; returns
bytes parsed or `none` for the -1 failure sentinel.  Feeding a zero-length
range to a completed message is a no-op; a completed or failed message
accepts no further bytes (spec section 3). -/
def ParseFromArray (m : HttpMessage) (data : List Char) : HttpMessage × Option Nat :=
  if m.stage = .messageComplete then
    (if data.isEmpty then (m, some 0) else (m, none))
  else if m.err then (m, none)
  else if data.isEmpty then feedEof m
  else
    let m' := runBytes m data
    if m'.err then (m', none)
    else ({ m' with parsedLength := m.parsedLength + data.length }, some data.length)

/-- Segment iteration of `ParseFromIOBuf`: each backing block of the
segmented buffer is fed to the tokenizer in turn, without first copying the
blocks into one contiguous range. -/
def parseSegs (m : HttpMessage) (segs : List (List Char)) : HttpMessage :=
  match segs with
  | [] => m
  | s :: rest => parseSegs (runBytes m s) rest

/-- Modelled from the spec: `HttpMessage::ParseFromIOBuf` (`http_message.h`
lines 61-64; body not in the sources).  Per the header comment, an empty
buffer is silently ignored — which is different from `ParseFromArray`, where
an empty range signals EOF. -/
def ParseFromIOBuf (m : HttpMessage) (segs : List (List Char)) : HttpMessage × Option Nat :=
  if m.stage = .messageComplete then
    (if segs.flatten.isEmpty then (m, some 0) else (m, none))
  else if m.err then (m, none)
  else if segs.flatten.isEmpty then (m, some 0)
  else
    let m' := parseSegs m segs
    if m'.err then (m', none)
    else ({ m' with parsedLength := m.parsedLength + segs.flatten.length },
          some segs.flatten.length)

/-- Events observable around the hand-off critical section: acquiring and
releasing the mutex, a feed call into the reader, destruction of a reader. -/
inductive Ev
  | lock | unlock | feedReader (data : List Char) | destroyReader
deriving DecidableEq, Repr

/-- Modelled from the spec: `HttpMessage::SetBodyReader` (`attachReader` of
spec section 4.3; body of `http_message.cpp` is not in the sources).  Under
a short critical section the already-buffered body bytes are taken and the
reader is attached; the flush call into the reader happens only after the
lock is released (the returned event trace records this order).  Any error
during the setting destroys the reader (`http_message.h` line 96); a second
reader while one is attached is rejected and destroyed (at most one attached
reader, spec section 3). -/
def SetBodyReader (m : HttpMessage) (r : ProgressiveReader) :
    HttpMessage × List Ev :=
  match m.bodyReader with
  | some _ =>
    ({ m with destroyedReaders := m.destroyedReaders ++ [r] },
     [.lock, .unlock, .destroyReader])
  | none =>
    if m.body.isEmpty then
      ({ m with bodyReader := some r }, [.lock, .unlock])
    else
      match readerFeed r m.body with
      | (r', true) =>
        ({ m with bodyReader := some r', body := [], delivered := m.delivered ++ m.body },
         [.lock, .unlock, .feedReader m.body])
      | (r', false) =>
        ({ m with bodyReader := none, body := [], feedFailed := true,
                  destroyedReaders := m.destroyedReaders ++ [r'] },
         [.lock, .unlock, .feedReader m.body, .destroyReader])

/-- The operations a client can perform on one message. -/
inductive Op
  | parseArr (data : List Char)
  | parseBuf (segs : List (List Char))
  | setReader (r : ProgressiveReader)
deriving DecidableEq, Repr

def applyOp (m : HttpMessage) : Op → HttpMessage
  | .parseArr d => (ParseFromArray m d).1
  | .parseBuf s => (ParseFromIOBuf m s).1
  | .setReader r => (SetBodyReader m r).1

def applyOps (m : HttpMessage) (ops : List Op) : HttpMessage := ops.foldl applyOp m

def natDigitsAux : Nat → Nat → List Char
  | 0, _ => []
  | fuel + 1, n =>
    if n < 10 then [Char.ofNat (48 + n)]
    else natDigitsAux fuel (n / 10) ++ [Char.ofNat (48 + n % 10)]

def natDigits (n : Nat) : List Char := natDigitsAux (n + 1) n

def renderFields : List (List Char × List Char) → List Char
  | [] => []
  | (n, v) :: rest => n ++ str ": " ++ v ++ crlf ++ renderFields rest

/-- Inject `Host` from the remote endpoint if absent (requests only). -/
def addHostIfAbsent (h : HttpHeader) (remote : List Char) : HttpHeader :=
  if (findHeader h.fields (str "host")).isNone then
    { h with fields := h.fields ++ [(str "Host", remote)] }
  else h

/-- Inject `Content-Length` computed from the content length if the header
does not already declare a body-length/encoding strategy. -/
def addContentLength (h : HttpHeader) (len : Nat) : HttpHeader :=
  if (findHeader h.fields (str "content-length")).isNone
      && (findHeader h.fields (str "transfer-encoding")).isNone then
    { h with fields := h.fields ++ [(str "Content-Length", natDigits len)] }
  else h

/-- Modelled from the spec: `MakeRawHttpRequest` (`http_message.h` lines
138-145; body not in the sources).  Normalizes the header in place (`Host`
from the remote side if absent, `Content-Length` from the content length if
no strategy is declared), then emits start-line, the fields in order, a
blank line and the content.  The declaration takes the content as a pointer
to const (`const butil::IOBuf* content`), so the caller's content buffer is
appended but not drained: the triple returned is (wire bytes, the possibly
mutated header, the caller's content buffer after the call). -/
def MakeRawHttpRequest (header : HttpHeader) (remoteSide : List Char)
    (content : List Char) : List Char × HttpHeader × List Char :=
  let h2 := addContentLength (addHostIfAbsent header remoteSide) content.length
  (h2.method ++ [' '] ++ h2.uri ++ str " HTTP/1.1" ++ crlf
     ++ renderFields h2.fields ++ crlf ++ content,
   h2, content)

/-- Modelled from the spec: `MakeRawHttpResponse` (`http_message.h` lines
147-152; body not in the sources).  Same normalization without the `Host`
injection; per the header comment the content is cleared after usage
(drained into the output), so the returned caller's content buffer is empty. -/
def MakeRawHttpResponse (header : HttpHeader) (content : List Char) :
    List Char × HttpHeader × List Char :=
  let h2 := addContentLength header content.length
  (str "HTTP/1.1 " ++ natDigits h2.statusCode ++ str " OK" ++ crlf
     ++ renderFields h2.fields ++ crlf ++ content,
   h2, [])

end Brpc

namespace Brpc

theorem runBytes_append (m : HttpMessage) (a b : List Char) :
    runBytes m (a ++ b) = runBytes (runBytes m a) b :=
  List.foldl_append ..

theorem runBytes_cons (m : HttpMessage) (c : Char) (l : List Char) :
    runBytes m (c :: l) = runBytes (stepByte m c) l := rfl

theorem runBytes_nil (m : HttpMessage) : runBytes m [] = m := rfl

theorem stepByte_err (m : HttpMessage) (c : Char) (h : m.err = true) :
    stepByte m c = m := by
  simp [stepByte, h]

theorem runBytes_err (m : HttpMessage) (l : List Char) (h : m.err = true) :
    runBytes m l = m := by
  induction l with
  | nil => rfl
  | cons c l ih => rw [runBytes_cons, stepByte_err m c h]; exact ih

theorem err_false_of_runBytes (m : HttpMessage) (l : List Char)
    (h : (runBytes m l).err = false) : m.err = false := by
  by_contra hc
  rw [runBytes_err m l (by simpa using hc)] at h
  simp_all

theorem commitPending_parsed (m : HttpMessage) (n : Nat) :
    commitPending { m with parsedLength := n } = { commitPending m with parsedLength := n } := by
  obtain ⟨st, ps, er, pl, hd, isr, ac, ch, cv, fr, br, ca, bd, rd, dv, pr, ff, dt, ds⟩ := m
  cases cv <;> rfl

theorem OnBody_parsed (m : HttpMessage) (n : Nat) (d : List Char) :
    OnBody { m with parsedLength := n } d
      = ({ (OnBody m d).1 with parsedLength := n }, (OnBody m d).2) := by
  obtain ⟨st, ps, er, pl, hd, isr, ac, ch, cv, fr, br, ca, bd, rd, dv, pr, ff, dt, ds⟩ := m
  cases rd with
  | none => rfl
  | some r =>
    rcases hf : readerFeed r d with ⟨r', b⟩
    cases b <;> simp [OnBody, hf]

theorem OnMessageComplete_parsed (m : HttpMessage) (n : Nat) :
    OnMessageComplete { m with parsedLength := n }
      = { OnMessageComplete m with parsedLength := n } := by
  obtain ⟨st, ps, er, pl, hd, isr, ac, ch, cv, fr, br, ca, bd, rd, dv, pr, ff, dt, ds⟩ := m
  cases rd <;> rfl

theorem onHeadersDone_parsed (m : HttpMessage) (n : Nat) :
    onHeadersDone { m with parsedLength := n } = { onHeadersDone m with parsedLength := n } := by
  obtain ⟨st, ps, er, pl, hd, isr, ac, ch, cv, fr, br, ca, bd, rd, dv, pr, ff, dt, ds⟩ := m
  unfold onHeadersDone
  rw [commitPending_parsed]
  cases hte : findHeader (commitPending ⟨st, ps, er, pl, hd, isr, ac, ch, cv, fr, br, ca, bd, rd, dv, pr, ff, dt, ds⟩).header.fields (str "transfer-encoding") with
  | some te =>
    by_cases hch : lowerEq te (str "chunked") = true <;> simp [hte, hch]
  | none =>
    cases hcl : findHeader (commitPending ⟨st, ps, er, pl, hd, isr, ac, ch, cv, fr, br, ca, bd, rd, dv, pr, ff, dt, ds⟩).header.fields (str "content-length") with
    | some v =>
      cases hd' : digitsToNat v with
      | some k =>
        cases k with
        | zero =>
          cases hr : (commitPending ⟨st, ps, er, pl, hd, isr, ac, ch, cv, fr, br, ca, bd, rd, dv, pr, ff, dt, ds⟩).bodyReader <;>
            simp [hte, hcl, hd', OnMessageComplete, hr]
        | succ j => simp [hte, hcl, hd']
      | none => simp [hte, hcl, hd']
    | none =>
      by_cases hresp : (commitPending ⟨st, ps, er, pl, hd, isr, ac, ch, cv, fr, br, ca, bd, rd, dv, pr, ff, dt, ds⟩).isResponse = true
      · simp [hte, hcl, hresp]
      · cases hr : (commitPending ⟨st, ps, er, pl, hd, isr, ac, ch, cv, fr, br, ca, bd, rd, dv, pr, ff, dt, ds⟩).bodyReader <;>
          simp [hte, hcl, hresp, OnMessageComplete, hr]

theorem OnBody_parsed2 (m : HttpMessage) (n k : Nat) (d : List Char) :
    OnBody { m with stage := .body, bodyRemaining := k, parsedLength := n } d
      = ({ (OnBody { m with stage := .body, bodyRemaining := k } d).1 with parsedLength := n },
         (OnBody { m with stage := .body, bodyRemaining := k } d).2) :=
  OnBody_parsed { m with stage := .body, bodyRemaining := k } n d

theorem OnBody_parsed3 (m : HttpMessage) (n : Nat) (d : List Char) :
    OnBody { m with stage := .body, parsedLength := n } d
      = ({ (OnBody { m with stage := .body } d).1 with parsedLength := n },
         (OnBody { m with stage := .body } d).2) :=
  OnBody_parsed { m with stage := .body } n d

theorem OnBody_parsed4 (m : HttpMessage) (n k : Nat) (q : PS) (d : List Char) :
    OnBody { m with stage := .body, bodyRemaining := k, ps := q, parsedLength := n } d
      = ({ (OnBody { m with stage := .body, bodyRemaining := k, ps := q } d).1 with parsedLength := n },
         (OnBody { m with stage := .body, bodyRemaining := k, ps := q } d).2) :=
  OnBody_parsed { m with stage := .body, bodyRemaining := k, ps := q } n d

theorem stepCore_parsed (m : HttpMessage) (c : Char) (n : Nat) :
    stepCore { m with parsedLength := n } c = { stepCore m c with parsedLength := n } := by
  obtain ⟨st, ps, er, pl, hd, isr, ac, ch, cv, fr, br, ca, bd, rd, dv, pr, ff, dt, ds⟩ := m
  cases ps
  case methTok => simp only [stepCore]; split_ifs <;> rfl
  case reqUrl => simp only [stepCore]; split_ifs <;> rfl
  case reqVer => simp only [stepCore]; split_ifs <;> rfl
  case respVer => simp only [stepCore]; split_ifs <;> rfl
  case respCode => simp only [stepCore]; split_ifs <;> rfl
  case respReason => simp only [stepCore]; split_ifs <;> rfl
  case lineLF => simp only [stepCore]; split_ifs <;> rfl
  case hdrStart => cases cv <;> (simp only [stepCore]; split_ifs <;> rfl)
  case hdrField => simp only [stepCore]; split_ifs <;> rfl
  case hdrOWS => simp only [stepCore]; split_ifs <;> rfl
  case hdrValue => simp only [stepCore]; split_ifs <;> rfl
  case hdrCR => simp only [stepCore]; split_ifs <;> rfl
  case finalLF =>
    cases cv with
    | none =>
      simp only [stepCore, onHeadersDone, commitPending]
      split_ifs with hc
      all_goals try rfl
      all_goals
        cases hte : findHeader (hd.fields) (str "transfer-encoding") with
        | some te => by_cases hch : lowerEq te (str "chunked") = true <;> simp [hte, hch]
        | none =>
          cases hcl : findHeader (hd.fields) (str "content-length") with
          | some v =>
            cases hdg : digitsToNat v with
            | some k => cases k <;> cases rd <;> simp [hte, hcl, hdg, OnMessageComplete]
            | none => simp [hte, hcl, hdg]
          | none => cases isr <;> cases rd <;> simp [hte, hcl, OnMessageComplete]
    | some v0 =>
      simp only [stepCore, onHeadersDone, commitPending]
      split_ifs with hc
      all_goals try rfl
      all_goals
        cases hte : findHeader (hd.fields ++ [(ch, v0)]) (str "transfer-encoding") with
        | some te => by_cases hch : lowerEq te (str "chunked") = true <;> simp [hte, hch]
        | none =>
          cases hcl : findHeader (hd.fields ++ [(ch, v0)]) (str "content-length") with
          | some v =>
            cases hdg : digitsToNat v with
            | some k => cases k <;> cases rd <;> simp [hte, hcl, hdg, OnMessageComplete]
            | none => simp [hte, hcl, hdg]
          | none => cases isr <;> cases rd <;> simp [hte, hcl, OnMessageComplete]
  case bodyCL =>
    cases br with
    | zero => rfl
    | succ k =>
      cases rd with
      | none => cases k <;> rfl
      | some r =>
        obtain ⟨rcv, scr, se⟩ := r
        cases scr with
        | nil => cases k <;> rfl
        | cons b rest => cases b <;> cases k <;> rfl
  case bodyEof =>
    cases rd with
    | none => rfl
    | some r =>
      obtain ⟨rcv, scr, se⟩ := r
      cases scr with
      | nil => rfl
      | cons b rest => cases b <;> rfl
  case chunkSize => simp only [stepCore]; split_ifs <;> rfl
  case chunkSizeLF => simp only [stepCore]; split_ifs <;> rfl
  case bodyChunk =>
    cases br with
    | zero => rfl
    | succ k =>
      cases rd with
      | none => cases k <;> rfl
      | some r =>
        obtain ⟨rcv, scr, se⟩ := r
        cases scr with
        | nil => cases k <;> rfl
        | cons b rest => cases b <;> cases k <;> rfl
  case chunkCR => simp only [stepCore]; split_ifs <;> rfl
  case chunkLF => simp only [stepCore]; split_ifs <;> rfl
  case trailCR => simp only [stepCore]; split_ifs <;> rfl
  case trailLF => cases rd <;> (simp only [stepCore]; split_ifs <;> rfl)
  case done => rfl

theorem stepByte_parsed (m : HttpMessage) (c : Char) (n : Nat) :
    stepByte { m with parsedLength := n } c = { stepByte m c with parsedLength := n } := by
  simp only [stepByte]
  by_cases h : m.err = true
  · rw [if_pos (show (({ m with parsedLength := n } : HttpMessage).err = true) from h), if_pos h]
  · rw [if_neg (show ¬(({ m with parsedLength := n } : HttpMessage).err = true) from h), if_neg h]
    exact stepCore_parsed m c n

theorem runBytes_parsed (m : HttpMessage) (l : List Char) (n : Nat) :
    runBytes { m with parsedLength := n } l = { runBytes m l with parsedLength := n } := by
  induction l generalizing m with
  | nil => rfl
  | cons c l ih => rw [runBytes_cons, runBytes_cons, stepByte_parsed, ih]

theorem stepByte_parsedLength (m : HttpMessage) (c : Char) :
    (stepByte m c).parsedLength = m.parsedLength := by
  have h := stepByte_parsed m c m.parsedLength
  have he : ({ m with parsedLength := m.parsedLength } : HttpMessage) = m := rfl
  rw [he] at h
  rw [h]

theorem runBytes_parsedLength (m : HttpMessage) (l : List Char) :
    (runBytes m l).parsedLength = m.parsedLength := by
  have h := runBytes_parsed m l m.parsedLength
  have he : ({ m with parsedLength := m.parsedLength } : HttpMessage) = m := rfl
  rw [he] at h
  rw [h]

theorem readerFeed_true (r r' : ProgressiveReader) (d : List Char)
    (h : readerFeed r d = (r', true)) :
    r'.received = r.received ++ d ∧ r'.sawEnd = r.sawEnd := by
  unfold readerFeed at h
  cases hs : r.script with
  | nil =>
    rw [hs] at h
    injection h with h1 _
    subst h1
    exact ⟨rfl, rfl⟩
  | cons b rest =>
    rw [hs] at h
    cases b
    · simp at h
    · simp only [if_true] at h
      injection h with h1 _
      subst h1
      exact ⟨rfl, rfl⟩

theorem readerFeed_false (r r' : ProgressiveReader) (d : List Char)
    (h : readerFeed r d = (r', false)) :
    r'.received = r.received ∧ r'.sawEnd = r.sawEnd := by
  unfold readerFeed at h
  cases hs : r.script with
  | nil => rw [hs] at h; simp at h
  | cons b rest =>
    rw [hs] at h
    cases b
    · simp only [if_false, Bool.false_eq_true] at h
      injection h with h1 _
      subst h1
      exact ⟨rfl, rfl⟩
    · simp at h

/-- The buffer-accounting invariant of spec section 3: while no feed call to
a reader has failed, the bytes delivered to readers followed by the bytes
still buffered are exactly the body bytes the parser has produced; moreover
the buffer is empty whenever a reader is attached. -/
def MsgInv (m : HttpMessage) : Prop :=
  (m.feedFailed = false → m.delivered ++ m.body = m.produced)
  ∧ (∀ r, m.bodyReader = some r → m.body = [])

theorem stepCore_facts (m : HttpMessage) (c : Char) :
    (stepCore m c).destroyedReaders = m.destroyedReaders
    ∧ (∃ t, (stepCore m c).detachedReaders = m.detachedReaders ++ t)
    ∧ ((stepCore m c).feedFailed = false → m.feedFailed = false)
    ∧ (MsgInv m → MsgInv (stepCore m c)) := by
  obtain ⟨st, ps, er, pl, hd, isr, ac, ch, cv, fr, br, ca, bd, rd, dv, pr, ff, dt, ds⟩ := m
  cases ps
  case methTok => simp only [stepCore]; split_ifs <;> exact ⟨rfl, ⟨[], (List.append_nil _).symm⟩, id, id⟩
  case reqUrl => simp only [stepCore]; split_ifs <;> exact ⟨rfl, ⟨[], (List.append_nil _).symm⟩, id, id⟩
  case reqVer => simp only [stepCore]; split_ifs <;> exact ⟨rfl, ⟨[], (List.append_nil _).symm⟩, id, id⟩
  case respVer => simp only [stepCore]; split_ifs <;> exact ⟨rfl, ⟨[], (List.append_nil _).symm⟩, id, id⟩
  case respCode => simp only [stepCore]; split_ifs <;> exact ⟨rfl, ⟨[], (List.append_nil _).symm⟩, id, id⟩
  case respReason => simp only [stepCore]; split_ifs <;> exact ⟨rfl, ⟨[], (List.append_nil _).symm⟩, id, id⟩
  case lineLF => simp only [stepCore]; split_ifs <;> exact ⟨rfl, ⟨[], (List.append_nil _).symm⟩, id, id⟩
  case hdrStart =>
    cases cv <;>
      (simp only [stepCore, commitPending]
       split_ifs <;> exact ⟨rfl, ⟨[], (List.append_nil _).symm⟩, id, id⟩)
  case hdrField => simp only [stepCore]; split_ifs <;> exact ⟨rfl, ⟨[], (List.append_nil _).symm⟩, id, id⟩
  case hdrOWS => simp only [stepCore]; split_ifs <;> exact ⟨rfl, ⟨[], (List.append_nil _).symm⟩, id, id⟩
  case hdrValue => simp only [stepCore]; split_ifs <;> exact ⟨rfl, ⟨[], (List.append_nil _).symm⟩, id, id⟩
  case hdrCR => simp only [stepCore]; split_ifs <;> exact ⟨rfl, ⟨[], (List.append_nil _).symm⟩, id, id⟩
  case finalLF =>
    cases cv with
    | none =>
      simp only [stepCore, onHeadersDone, commitPending]
      by_cases hc : (c == '\n') = true
      · rw [if_pos hc]
        split
        · split_ifs <;> exact ⟨rfl, ⟨[], (List.append_nil _).symm⟩, id, fun h => ⟨h.1, h.2⟩⟩
        · split
          · split
            · cases rd with
              | none =>
                exact ⟨rfl, ⟨[], (List.append_nil _).symm⟩, id,
                  fun h => ⟨h.1, fun r2 hr2 => nomatch hr2⟩⟩
              | some r =>
                exact ⟨rfl, ⟨[readerEnd r], rfl⟩, id,
                  fun h => ⟨h.1, fun r2 hr2 => nomatch hr2⟩⟩
            · exact ⟨rfl, ⟨[], (List.append_nil _).symm⟩, id, fun h => ⟨h.1, h.2⟩⟩
            · exact ⟨rfl, ⟨[], (List.append_nil _).symm⟩, id, fun h => ⟨h.1, h.2⟩⟩
          · split_ifs
            · exact ⟨rfl, ⟨[], (List.append_nil _).symm⟩, id, fun h => ⟨h.1, h.2⟩⟩
            · cases rd with
              | none =>
                exact ⟨rfl, ⟨[], (List.append_nil _).symm⟩, id,
                  fun h => ⟨h.1, fun r2 hr2 => nomatch hr2⟩⟩
              | some r =>
                exact ⟨rfl, ⟨[readerEnd r], rfl⟩, id,
                  fun h => ⟨h.1, fun r2 hr2 => nomatch hr2⟩⟩
      · rw [if_neg hc]
        exact ⟨rfl, ⟨[], (List.append_nil _).symm⟩, id, id⟩
    | some v0 =>
      simp only [stepCore, onHeadersDone, commitPending]
      by_cases hc : (c == '\n') = true
      · rw [if_pos hc]
        split
        · split_ifs <;> exact ⟨rfl, ⟨[], (List.append_nil _).symm⟩, id, fun h => ⟨h.1, h.2⟩⟩
        · split
          · split
            · cases rd with
              | none =>
                exact ⟨rfl, ⟨[], (List.append_nil _).symm⟩, id,
                  fun h => ⟨h.1, fun r2 hr2 => nomatch hr2⟩⟩
              | some r =>
                exact ⟨rfl, ⟨[readerEnd r], rfl⟩, id,
                  fun h => ⟨h.1, fun r2 hr2 => nomatch hr2⟩⟩
            · exact ⟨rfl, ⟨[], (List.append_nil _).symm⟩, id, fun h => ⟨h.1, h.2⟩⟩
            · exact ⟨rfl, ⟨[], (List.append_nil _).symm⟩, id, fun h => ⟨h.1, h.2⟩⟩
          · split_ifs
            · exact ⟨rfl, ⟨[], (List.append_nil _).symm⟩, id, fun h => ⟨h.1, h.2⟩⟩
            · cases rd with
              | none =>
                exact ⟨rfl, ⟨[], (List.append_nil _).symm⟩, id,
                  fun h => ⟨h.1, fun r2 hr2 => nomatch hr2⟩⟩
              | some r =>
                exact ⟨rfl, ⟨[readerEnd r], rfl⟩, id,
                  fun h => ⟨h.1, fun r2 hr2 => nomatch hr2⟩⟩
      · rw [if_neg hc]
        exact ⟨rfl, ⟨[], (List.append_nil _).symm⟩, id, id⟩
  case bodyCL =>
    cases br with
    | zero => exact ⟨rfl, ⟨[], (List.append_nil _).symm⟩, id, id⟩
    | succ k =>
      cases rd with
      | none =>
        cases k <;>
          exact ⟨rfl, ⟨[], (List.append_nil _).symm⟩, id, fun hI =>
            ⟨fun h => by
               have h2 := hI.1 h
               show dv ++ (bd ++ [c]) = pr ++ [c]
               rw [← List.append_assoc, h2],
             fun r2 hr2 => nomatch hr2⟩⟩
      | some r =>
        obtain ⟨rcv, scr, se⟩ := r
        rcases scr with _ | ⟨b, rest⟩
        · cases k <;>
            refine ⟨rfl, ?_, id, fun hI =>
              ⟨fun h => by
                 have hbd : bd = [] := hI.2 ⟨rcv, [], se⟩ rfl
                 have h2 := hI.1 h
                 have h3 : dv = pr := by simpa [hbd] using h2
                 show (dv ++ [c]) ++ bd = pr ++ [c]
                 rw [hbd, List.append_nil, h3],
               fun r2 hr2 => hI.2 ⟨rcv, [], se⟩ rfl⟩⟩
          · exact ⟨[readerEnd ⟨rcv ++ [c], [], se⟩], rfl⟩
          · exact ⟨[], (List.append_nil _).symm⟩
        · cases b
          case false =>
            cases k <;>
              (refine ⟨rfl, ⟨[⟨rcv, rest, se⟩], rfl⟩, ?_, ?_⟩
               · intro h; exact nomatch h
               · intro hI
                 constructor
                 · intro h; exact nomatch h
                 · intro r2 hr2; exact nomatch hr2)
          case true =>
            cases k <;>
              refine ⟨rfl, ?_, id, fun hI =>
                ⟨fun h => by
                   have hbd : bd = [] := hI.2 ⟨rcv, true :: rest, se⟩ rfl
                   have h2 := hI.1 h
                   have h3 : dv = pr := by simpa [hbd] using h2
                   show (dv ++ [c]) ++ bd = pr ++ [c]
                   rw [hbd, List.append_nil, h3],
                 fun r2 hr2 => hI.2 ⟨rcv, true :: rest, se⟩ rfl⟩⟩
            · exact ⟨[readerEnd ⟨rcv ++ [c], rest, se⟩], rfl⟩
            · exact ⟨[], (List.append_nil _).symm⟩
  case bodyEof =>
    cases rd with
    | none =>
      exact ⟨rfl, ⟨[], (List.append_nil _).symm⟩, id, fun hI =>
        ⟨fun h => by
           have h2 := hI.1 h
           show dv ++ (bd ++ [c]) = pr ++ [c]
           rw [← List.append_assoc, h2],
         fun r2 hr2 => nomatch hr2⟩⟩
    | some r =>
      obtain ⟨rcv, scr, se⟩ := r
      rcases scr with _ | ⟨b, rest⟩
      · exact ⟨rfl, ⟨[], (List.append_nil _).symm⟩, id, fun hI =>
          ⟨fun h => by
             have hbd : bd = [] := hI.2 ⟨rcv, [], se⟩ rfl
             have h2 := hI.1 h
             have h3 : dv = pr := by simpa [hbd] using h2
             show (dv ++ [c]) ++ bd = pr ++ [c]
             rw [hbd, List.append_nil, h3],
           fun r2 hr2 => hI.2 ⟨rcv, [], se⟩ rfl⟩⟩
      · cases b
        case false =>
          refine ⟨rfl, ⟨[⟨rcv, rest, se⟩], rfl⟩, ?_, ?_⟩
          · intro h; exact nomatch h
          · intro hI
            constructor
            · intro h; exact nomatch h
            · intro r2 hr2; exact nomatch hr2
        case true =>
          exact ⟨rfl, ⟨[], (List.append_nil _).symm⟩, id, fun hI =>
            ⟨fun h => by
               have hbd : bd = [] := hI.2 ⟨rcv, true :: rest, se⟩ rfl
               have h2 := hI.1 h
               have h3 : dv = pr := by simpa [hbd] using h2
               show (dv ++ [c]) ++ bd = pr ++ [c]
               rw [hbd, List.append_nil, h3],
             fun r2 hr2 => hI.2 ⟨rcv, true :: rest, se⟩ rfl⟩⟩
  case chunkSize => simp only [stepCore]; split_ifs <;> exact ⟨rfl, ⟨[], (List.append_nil _).symm⟩, id, id⟩
  case chunkSizeLF => simp only [stepCore]; split_ifs <;> exact ⟨rfl, ⟨[], (List.append_nil _).symm⟩, id, id⟩
  case bodyChunk =>
    cases br with
    | zero => exact ⟨rfl, ⟨[], (List.append_nil _).symm⟩, id, id⟩
    | succ k =>
      cases rd with
      | none =>
        cases k <;>
          exact ⟨rfl, ⟨[], (List.append_nil _).symm⟩, id, fun hI =>
            ⟨fun h => by
               have h2 := hI.1 h
               show dv ++ (bd ++ [c]) = pr ++ [c]
               rw [← List.append_assoc, h2],
             fun r2 hr2 => nomatch hr2⟩⟩
      | some r =>
        obtain ⟨rcv, scr, se⟩ := r
        rcases scr with _ | ⟨b, rest⟩
        · cases k <;>
            exact ⟨rfl, ⟨[], (List.append_nil _).symm⟩, id, fun hI =>
              ⟨fun h => by
                 have hbd : bd = [] := hI.2 ⟨rcv, [], se⟩ rfl
                 have h2 := hI.1 h
                 have h3 : dv = pr := by simpa [hbd] using h2
                 show (dv ++ [c]) ++ bd = pr ++ [c]
                 rw [hbd, List.append_nil, h3],
               fun r2 hr2 => hI.2 ⟨rcv, [], se⟩ rfl⟩⟩
        · cases b
          case false =>
            cases k <;>
              (refine ⟨rfl, ⟨[⟨rcv, rest, se⟩], rfl⟩, ?_, ?_⟩
               · intro h; exact nomatch h
               · intro hI
                 constructor
                 · intro h; exact nomatch h
                 · intro r2 hr2; exact nomatch hr2)
          case true =>
            cases k <;>
              exact ⟨rfl, ⟨[], (List.append_nil _).symm⟩, id, fun hI =>
                ⟨fun h => by
                   have hbd : bd = [] := hI.2 ⟨rcv, true :: rest, se⟩ rfl
                   have h2 := hI.1 h
                   have h3 : dv = pr := by simpa [hbd] using h2
                   show (dv ++ [c]) ++ bd = pr ++ [c]
                   rw [hbd, List.append_nil, h3],
                 fun r2 hr2 => hI.2 ⟨rcv, true :: rest, se⟩ rfl⟩⟩
  case chunkCR => simp only [stepCore]; split_ifs <;> exact ⟨rfl, ⟨[], (List.append_nil _).symm⟩, id, id⟩
  case chunkLF => simp only [stepCore]; split_ifs <;> exact ⟨rfl, ⟨[], (List.append_nil _).symm⟩, id, id⟩
  case trailCR => simp only [stepCore]; split_ifs <;> exact ⟨rfl, ⟨[], (List.append_nil _).symm⟩, id, id⟩
  case trailLF =>
    cases rd with
    | none =>
      simp only [stepCore, OnMessageComplete]
      split_ifs <;> exact ⟨rfl, ⟨[], (List.append_nil _).symm⟩, id, fun h => ⟨h.1, fun r2 hr2 => nomatch hr2⟩⟩
    | some r =>
      simp only [stepCore, OnMessageComplete]
      split_ifs
      · exact ⟨rfl, ⟨[readerEnd r], rfl⟩, id, fun h => ⟨h.1, fun r2 hr2 => nomatch hr2⟩⟩
      · exact ⟨rfl, ⟨[], (List.append_nil _).symm⟩, id, id⟩
  case done => exact ⟨rfl, ⟨[], (List.append_nil _).symm⟩, id, id⟩

theorem OnMessageComplete_facts (m : HttpMessage) :
    (OnMessageComplete m).destroyedReaders = m.destroyedReaders
    ∧ (∃ t, (OnMessageComplete m).detachedReaders = m.detachedReaders ++ t)
    ∧ ((OnMessageComplete m).feedFailed = false → m.feedFailed = false)
    ∧ (MsgInv m → MsgInv (OnMessageComplete m))
    ∧ (OnMessageComplete m).parsedLength = m.parsedLength := by
  obtain ⟨st, ps, er, pl, hd, isr, ac, ch, cv, fr, br, ca, bd, rd, dv, pr, ff, dt, ds⟩ := m
  cases rd with
  | none =>
    exact ⟨rfl, ⟨[], (List.append_nil _).symm⟩, id,
      fun h => ⟨h.1, fun r2 hr2 => nomatch hr2⟩, rfl⟩
  | some r =>
    exact ⟨rfl, ⟨[readerEnd r], rfl⟩, id,
      fun h => ⟨h.1, fun r2 hr2 => nomatch hr2⟩, rfl⟩

theorem stepByte_facts (m : HttpMessage) (c : Char) :
    (stepByte m c).destroyedReaders = m.destroyedReaders
    ∧ (∃ t, (stepByte m c).detachedReaders = m.detachedReaders ++ t)
    ∧ ((stepByte m c).feedFailed = false → m.feedFailed = false)
    ∧ (MsgInv m → MsgInv (stepByte m c)) := by
  by_cases h : m.err = true
  · rw [stepByte_err m c h]
    exact ⟨rfl, ⟨[], (List.append_nil _).symm⟩, id, id⟩
  · have he : stepByte m c = stepCore m c := by simp [stepByte, h]
    rw [he]
    exact stepCore_facts m c

theorem runBytes_facts (l : List Char) (m : HttpMessage) :
    (runBytes m l).destroyedReaders = m.destroyedReaders
    ∧ (∃ t, (runBytes m l).detachedReaders = m.detachedReaders ++ t)
    ∧ ((runBytes m l).feedFailed = false → m.feedFailed = false)
    ∧ (MsgInv m → MsgInv (runBytes m l)) := by
  induction l generalizing m with
  | nil => exact ⟨rfl, ⟨[], (List.append_nil _).symm⟩, id, id⟩
  | cons c l ih =>
    rw [runBytes_cons]
    obtain ⟨d1, ⟨t1, e1⟩, f1, i1⟩ := stepByte_facts m c
    obtain ⟨d2, ⟨t2, e2⟩, f2, i2⟩ := ih (stepByte m c)
    refine ⟨d2.trans d1, ⟨t1 ++ t2, ?_⟩, fun h => f1 (f2 h), fun h => i2 (i1 h)⟩
    rw [e2, e1, List.append_assoc]

theorem feedEofFst_facts (m : HttpMessage) :
    (feedEof m).1.destroyedReaders = m.destroyedReaders
    ∧ (∃ t, (feedEof m).1.detachedReaders = m.detachedReaders ++ t)
    ∧ ((feedEof m).1.feedFailed = false → m.feedFailed = false)
    ∧ (MsgInv m → MsgInv (feedEof m).1)
    ∧ (feedEof m).1.parsedLength = m.parsedLength := by
  obtain ⟨st, ps, er, pl, hd, isr, ac, ch, cv, fr, br, ca, bd, rd, dv, pr, ff, dt, ds⟩ := m
  cases ps
  case bodyEof =>
    exact OnMessageComplete_facts ⟨st, PS.bodyEof, er, pl, hd, isr, ac, ch, cv, fr, br, ca, bd, rd, dv, pr, ff, dt, ds⟩
  case methTok =>
    cases ac <;> exact ⟨rfl, ⟨[], (List.append_nil _).symm⟩, id, id, rfl⟩
  all_goals exact ⟨rfl, ⟨[], (List.append_nil _).symm⟩, id, id, rfl⟩

theorem parseSegs_parsedLength (segs : List (List Char)) (m : HttpMessage) :
    (parseSegs m segs).parsedLength = m.parsedLength := by
  induction segs generalizing m with
  | nil => rfl
  | cons s rest ih =>
    have hstep : parseSegs m (s :: rest) = parseSegs (runBytes m s) rest := rfl
    rw [hstep, ih, runBytes_parsedLength]

theorem parseSegs_facts (segs : List (List Char)) (m : HttpMessage) :
    (parseSegs m segs).destroyedReaders = m.destroyedReaders
    ∧ (∃ t, (parseSegs m segs).detachedReaders = m.detachedReaders ++ t)
    ∧ ((parseSegs m segs).feedFailed = false → m.feedFailed = false)
    ∧ (MsgInv m → MsgInv (parseSegs m segs)) := by
  induction segs generalizing m with
  | nil => exact ⟨rfl, ⟨[], (List.append_nil _).symm⟩, id, id⟩
  | cons s rest ih =>
    have hstep : parseSegs m (s :: rest) = parseSegs (runBytes m s) rest := rfl
    rw [hstep]
    obtain ⟨d1, ⟨t1, e1⟩, f1, i1⟩ := runBytes_facts s m
    obtain ⟨d2, ⟨t2, e2⟩, f2, i2⟩ := ih (runBytes m s)
    refine ⟨d2.trans d1, ⟨t1 ++ t2, ?_⟩, fun h => f1 (f2 h), fun h => i2 (i1 h)⟩
    rw [e2, e1, List.append_assoc]

theorem ParseFromArrayFst_facts (m : HttpMessage) (d : List Char) :
    (ParseFromArray m d).1.destroyedReaders = m.destroyedReaders
    ∧ (∃ t, (ParseFromArray m d).1.detachedReaders = m.detachedReaders ++ t)
    ∧ ((ParseFromArray m d).1.feedFailed = false → m.feedFailed = false)
    ∧ (MsgInv m → MsgInv (ParseFromArray m d).1)
    ∧ m.parsedLength ≤ (ParseFromArray m d).1.parsedLength := by
  unfold ParseFromArray
  split_ifs with h1 h2 h3 h4
  · exact ⟨rfl, ⟨[], (List.append_nil _).symm⟩, id, id, Nat.le_refl _⟩
  · exact ⟨rfl, ⟨[], (List.append_nil _).symm⟩, id, id, Nat.le_refl _⟩
  · exact ⟨rfl, ⟨[], (List.append_nil _).symm⟩, id, id, Nat.le_refl _⟩
  · obtain ⟨a, b, c2, d2, e2⟩ := feedEofFst_facts m
    exact ⟨a, b, c2, d2, Nat.le_of_eq e2.symm⟩
  · obtain ⟨a, b, c2, d2⟩ := runBytes_facts d m
    dsimp only
    split_ifs with h5
    · exact ⟨a, b, c2, d2, Nat.le_of_eq (runBytes_parsedLength m d).symm⟩
    · exact ⟨a, b, c2, fun h => ⟨(d2 h).1, (d2 h).2⟩, Nat.le_add_right _ _⟩

theorem ParseFromIOBufFst_facts (m : HttpMessage) (segs : List (List Char)) :
    (ParseFromIOBuf m segs).1.destroyedReaders = m.destroyedReaders
    ∧ (∃ t, (ParseFromIOBuf m segs).1.detachedReaders = m.detachedReaders ++ t)
    ∧ ((ParseFromIOBuf m segs).1.feedFailed = false → m.feedFailed = false)
    ∧ (MsgInv m → MsgInv (ParseFromIOBuf m segs).1)
    ∧ m.parsedLength ≤ (ParseFromIOBuf m segs).1.parsedLength := by
  unfold ParseFromIOBuf
  split_ifs with h1 h2 h3 h4
  · exact ⟨rfl, ⟨[], (List.append_nil _).symm⟩, id, id, Nat.le_refl _⟩
  · exact ⟨rfl, ⟨[], (List.append_nil _).symm⟩, id, id, Nat.le_refl _⟩
  · exact ⟨rfl, ⟨[], (List.append_nil _).symm⟩, id, id, Nat.le_refl _⟩
  · exact ⟨rfl, ⟨[], (List.append_nil _).symm⟩, id, id, Nat.le_refl _⟩
  · dsimp only
    obtain ⟨a, b, c2, d2⟩ := parseSegs_facts segs m
    have hpl : (parseSegs m segs).parsedLength = m.parsedLength := parseSegs_parsedLength segs m
    split_ifs with h5
    · exact ⟨a, b, c2, d2, Nat.le_of_eq hpl.symm⟩
    · exact ⟨a, b, c2, fun h => ⟨(d2 h).1, (d2 h).2⟩, Nat.le_add_right _ _⟩

theorem SetBodyReaderFst_facts (m : HttpMessage) (r : ProgressiveReader) :
    (∃ t, (SetBodyReader m r).1.destroyedReaders = m.destroyedReaders ++ t)
    ∧ (SetBodyReader m r).1.detachedReaders = m.detachedReaders
    ∧ ((SetBodyReader m r).1.feedFailed = false → m.feedFailed = false)
    ∧ (MsgInv m → MsgInv (SetBodyReader m r).1)
    ∧ (SetBodyReader m r).1.parsedLength = m.parsedLength
    ∧ (SetBodyReader m r).1.err = m.err
    ∧ (SetBodyReader m r).1.stage = m.stage := by
  unfold SetBodyReader
  cases hr : m.bodyReader with
  | some r0 =>
    exact ⟨⟨[r], rfl⟩, rfl, id,
      fun h => ⟨h.1, fun r2 hr2 => h.2 r2 (hr.trans hr2)⟩, rfl, rfl, rfl⟩
  | none =>
    split_ifs with hb
    · refine ⟨⟨[], (List.append_nil _).symm⟩, rfl, id, fun h => ⟨h.1, ?_⟩, rfl, rfl, rfl⟩
      intro r2 hr2
      exact List.isEmpty_iff.mp hb
    · rcases hf : readerFeed r m.body with ⟨r2, b⟩
      cases b
      · refine ⟨⟨[r2], rfl⟩, rfl, ?_, ?_, rfl, rfl, rfl⟩
        · intro h; exact nomatch h
        · intro hI
          constructor
          · intro h; exact nomatch h
          · intro r3 hr3; exact nomatch hr3
      · refine ⟨⟨[], (List.append_nil _).symm⟩, rfl, id, ?_, rfl, rfl, rfl⟩
        intro hI
        constructor
        · intro h
          show (m.delivered ++ m.body) ++ [] = m.produced
          rw [List.append_nil]
          exact hI.1 h
        · intro r3 hr3
          rfl

theorem applyOp_facts (m : HttpMessage) (op : Op) :
    (∃ t, (applyOp m op).destroyedReaders = m.destroyedReaders ++ t)
    ∧ (∃ t, (applyOp m op).detachedReaders = m.detachedReaders ++ t)
    ∧ ((applyOp m op).feedFailed = false → m.feedFailed = false)
    ∧ (MsgInv m → MsgInv (applyOp m op))
    ∧ m.parsedLength ≤ (applyOp m op).parsedLength := by
  cases op with
  | parseArr d =>
    obtain ⟨a, b, c2, d2, e2⟩ := ParseFromArrayFst_facts m d
    have e : applyOp m (Op.parseArr d) = (ParseFromArray m d).1 := rfl
    rw [e]
    exact ⟨⟨[], by rw [a, List.append_nil]⟩, b, c2, d2, e2⟩
  | parseBuf segs =>
    obtain ⟨a, b, c2, d2, e2⟩ := ParseFromIOBufFst_facts m segs
    have e : applyOp m (Op.parseBuf segs) = (ParseFromIOBuf m segs).1 := rfl
    rw [e]
    exact ⟨⟨[], by rw [a, List.append_nil]⟩, b, c2, d2, e2⟩
  | setReader r =>
    obtain ⟨a, b, c2, d2, e2, _, _⟩ := SetBodyReaderFst_facts m r
    have e : applyOp m (Op.setReader r) = (SetBodyReader m r).1 := rfl
    rw [e]
    exact ⟨a, ⟨[], by rw [b, List.append_nil]⟩, c2, d2, Nat.le_of_eq e2.symm⟩

theorem applyOps_facts (ops : List Op) (m : HttpMessage) :
    (∃ t, (applyOps m ops).destroyedReaders = m.destroyedReaders ++ t)
    ∧ (∃ t, (applyOps m ops).detachedReaders = m.detachedReaders ++ t)
    ∧ ((applyOps m ops).feedFailed = false → m.feedFailed = false)
    ∧ (MsgInv m → MsgInv (applyOps m ops))
    ∧ m.parsedLength ≤ (applyOps m ops).parsedLength := by
  induction ops generalizing m with
  | nil =>
    exact ⟨⟨[], (List.append_nil _).symm⟩, ⟨[], (List.append_nil _).symm⟩, id, id, Nat.le_refl _⟩
  | cons op rest ih =>
    have e : applyOps m (op :: rest) = applyOps (applyOp m op) rest := rfl
    rw [e]
    obtain ⟨⟨s1, a1⟩, ⟨t1, b1⟩, c1, d1, e1⟩ := applyOp_facts m op
    obtain ⟨⟨s2, a2⟩, ⟨t2, b2⟩, c2, d2, e2⟩ := ih (applyOp m op)
    refine ⟨⟨s1 ++ s2, ?_⟩, ⟨t1 ++ t2, ?_⟩, fun h => c1 (c2 h), fun h => d2 (d1 h),
      Nat.le_trans e1 e2⟩
    · rw [a2, a1, List.append_assoc]
    · rw [b2, b1, List.append_assoc]

theorem OnBody_reader_next (m : HttpMessage) (r1 : ProgressiveReader) (d : List Char)
    (hr : m.bodyReader = some r1) (hok : (OnBody m d).2 = true) :
    ∃ r2, (OnBody m d).1.bodyReader = some r2 ∧ r2.received = r1.received ++ d := by
  rcases hfd : readerFeed r1 d with ⟨r2, bb⟩
  cases bb
  · exfalso
    have hf : (OnBody m d).2 = false := by simp [OnBody, hr, hfd]
    rw [hf] at hok
    exact nomatch hok
  · refine ⟨r2, ?_, (readerFeed_true _ _ _ hfd).1⟩
    simp [OnBody, hr, hfd]

theorem readerFeed_false_script (r r' : ProgressiveReader) (d : List Char)
    (h : readerFeed r d = (r', false)) : r.script.head? = some false := by
  unfold readerFeed at h
  cases hs : r.script with
  | nil => rw [hs] at h; simp at h
  | cons b rest =>
    rw [hs] at h
    cases b
    · rfl
    · simp at h

/-- Claim C2: attaching a reader via `SetBodyReader` when the body buffer
already holds bytes flushes exactly those bytes to the reader, in order and
without duplication, before any body bytes fed after the attachment reach
the reader; the flush call happens after the lock is released (in the event
trace, the single `feedReader` call comes after `unlock`). -/
theorem c2_attach_flushes_buffered (m : HttpMessage) (r : ProgressiveReader)
    (hnone : m.bodyReader = none) (hacc : r.script.head? ≠ some false) :
    ∃ r', (SetBodyReader m r).1.bodyReader = some r'
      ∧ r'.received = r.received ++ m.body
      ∧ (SetBodyReader m r).1.body = []
      ∧ (SetBodyReader m r).2
          = [Ev.lock, Ev.unlock] ++ (if m.body.isEmpty then [] else [Ev.feedReader m.body])
      ∧ (∀ d, (OnBody (SetBodyReader m r).1 d).2 = true →
          ∃ r'', (OnBody (SetBodyReader m r).1 d).1.bodyReader = some r''
            ∧ r''.received = (r.received ++ m.body) ++ d) := by
  by_cases hb : m.body.isEmpty = true
  · have hbe : m.body = [] := List.isEmpty_iff.mp hb
    have hM : SetBodyReader m r = ({ m with bodyReader := some r }, [Ev.lock, Ev.unlock]) := by
      simp [SetBodyReader, hnone, hb]
    refine ⟨r, by rw [hM], by rw [hbe, List.append_nil], by rw [hM]; exact hbe,
      by rw [hM]; simp [hb], ?_⟩
    intro d hok
    obtain ⟨r2, h1, h2⟩ := OnBody_reader_next (SetBodyReader m r).1 r d (by rw [hM]) hok
    exact ⟨r2, h1, by rw [h2, hbe, List.append_nil]⟩
  · rcases hfd : readerFeed r m.body with ⟨r1, b1⟩
    cases b1
    · exact absurd (readerFeed_false_script _ _ _ hfd) hacc
    · have hM : SetBodyReader m r
          = ({ m with bodyReader := some r1, body := [], delivered := m.delivered ++ m.body },
             [Ev.lock, Ev.unlock, Ev.feedReader m.body]) := by
        simp [SetBodyReader, hnone, hb, hfd]
      refine ⟨r1, by rw [hM], (readerFeed_true _ _ _ hfd).1, by rw [hM],
        by rw [hM]; simp [hb], ?_⟩
      intro d hok
      obtain ⟨r2, h1, h2⟩ := OnBody_reader_next (SetBodyReader m r).1 r1 d (by rw [hM]) hok
      exact ⟨r2, h1, by rw [h2, (readerFeed_true _ _ _ hfd).1]⟩

/-- Claim C10: if the flush performed while attaching a reader through
`SetBodyReader` fails, the reader is destroyed (recorded in the destroyed
ghost list with its final state, having received nothing from the failed
call), it is not left attached, and under any later operations the destroyed
record persists unchanged, so it receives no further body bytes. -/
theorem c10_attach_flush_failure_destroys (m : HttpMessage) (r : ProgressiveReader)
    (hnone : m.bodyReader = none) (hne : m.body ≠ [])
    (hrej : r.script.head? = some false) :
    ∃ r', (SetBodyReader m r).1.bodyReader = none
      ∧ (SetBodyReader m r).1.destroyedReaders = m.destroyedReaders ++ [r']
      ∧ r'.received = r.received
      ∧ (SetBodyReader m r).2 = [Ev.lock, Ev.unlock, Ev.feedReader m.body, Ev.destroyReader]
      ∧ (∀ ops, ∃ tail, (applyOps (SetBodyReader m r).1 ops).destroyedReaders
          = m.destroyedReaders ++ [r'] ++ tail) := by
  have hb : m.body.isEmpty = false := by
    cases hbm : m.body with
    | nil => exact absurd hbm hne
    | cons a l => rfl
  rcases hfd : readerFeed r m.body with ⟨r1, b1⟩
  cases b1
  case true =>
    exfalso
    unfold readerFeed at hfd
    cases hs : r.script with
    | nil => rw [hs] at hrej; exact nomatch hrej
    | cons b rest =>
      rw [hs] at hrej hfd
      have hbf : b = false := by simpa using hrej
      rw [hbf] at hfd
      simp at hfd
  case false =>
    have hM : SetBodyReader m r
        = ({ m with bodyReader := none, body := [], feedFailed := true, destroyedReaders := m.destroyedReaders ++ [r1] },
           [Ev.lock, Ev.unlock, Ev.feedReader m.body, Ev.destroyReader]) := by
      simp [SetBodyReader, hnone, hb, hfd]
    refine ⟨r1, by rw [hM], by rw [hM], (readerFeed_false _ _ _ hfd).1, by rw [hM], ?_⟩
    intro ops
    obtain ⟨⟨t, ht⟩, _, _, _, _⟩ := applyOps_facts ops (SetBodyReader m r).1
    refine ⟨t, ?_⟩
    rw [ht, hM, List.append_assoc]

/-- Claim C5 (amended) : in every state reachable from a fresh message by
parse and attach operations in which no feed call to a reader has ever
failed, the bytes delivered to readers followed by the bytes still buffered
are exactly the body bytes produced by the parser — no byte lost, none
duplicated, with or without an attached reader. -/
theorem c5_body_accounting (ops : List Op)
    (h : (applyOps initMsg ops).feedFailed = false) :
    (applyOps initMsg ops).delivered ++ (applyOps initMsg ops).body
      = (applyOps initMsg ops).produced := by
  have hInit : MsgInv initMsg := ⟨fun _ => rfl, fun r hr => nomatch hr⟩
  exact ((applyOps_facts ops initMsg).2.2.2.1 hInit).1 h

/-- Claim C8: `parsed_length` never decreases across any sequence of
operations (in particular across successive feed calls) on one message. -/
theorem c8_parsed_length_monotone (m : HttpMessage) (ops : List Op) :
    m.parsedLength ≤ (applyOps m ops).parsedLength :=
  (applyOps_facts ops m).2.2.2.2

/-- Claim C9: feeding a zero-length range to an already-completed message is
a no-op — the returned state is the message unchanged (so neither stage nor
`parsed_length` nor any other observable changes) and the call reports 0
bytes consumed. -/
theorem c9_zero_length_noop_after_complete (m : HttpMessage)
    (h : m.stage = .messageComplete) :
    ParseFromArray m [] = (m, some 0) := by
  simp [ParseFromArray, h]

theorem parseSegs_eq_run (segs : List (List Char)) (m : HttpMessage) :
    parseSegs m segs = runBytes m segs.flatten := by
  induction segs generalizing m with
  | nil => rfl
  | cons s rest ih =>
    have e : parseSegs m (s :: rest) = parseSegs (runBytes m s) rest := rfl
    rw [e, ih]
    exact (runBytes_append m s rest.flatten).symm

/-- Claim C6 (amended) : for every nonempty input, `ParseFromIOBuf` on a
segmented buffer is equivalent to `ParseFromArray` on the concatenation of
its segments — same returned count and same final state.  (For the empty
input the two differ by design: the IOBuf entry point silently ignores an
empty buffer while the array entry point treats length 0 as EOF.) -/
theorem c6_segmented_equiv_nonempty (m : HttpMessage) (segs : List (List Char))
    (h : segs.flatten ≠ []) :
    ParseFromIOBuf m segs = ParseFromArray m segs.flatten := by
  have hni : segs.flatten.isEmpty = false := by
    cases hf : segs.flatten with
    | nil => exact absurd hf h
    | cons a l => rfl
  unfold ParseFromIOBuf ParseFromArray
  rw [parseSegs_eq_run]
  split_ifs <;> simp_all

theorem applyOp_err_stable (m : HttpMessage) (op : Op) (he : m.err = true)
    (hs : m.stage ≠ .messageComplete) :
    (applyOp m op).err = true ∧ (applyOp m op).stage = m.stage := by
  cases op with
  | parseArr d =>
    have e : applyOp m (Op.parseArr d) = (ParseFromArray m d).1 := rfl
    have h2 : ParseFromArray m d = (m, none) := by
      unfold ParseFromArray
      rw [if_neg hs, if_pos he]
    rw [e, h2]
    exact ⟨he, rfl⟩
  | parseBuf segs =>
    have e : applyOp m (Op.parseBuf segs) = (ParseFromIOBuf m segs).1 := rfl
    have h2 : ParseFromIOBuf m segs = (m, none) := by
      unfold ParseFromIOBuf
      rw [if_neg hs, if_pos he]
    rw [e, h2]
    exact ⟨he, rfl⟩
  | setReader r =>
    obtain ⟨_, _, _, _, _, herr, hstage⟩ := SetBodyReaderFst_facts m r
    have e : applyOp m (Op.setReader r) = (SetBodyReader m r).1 := rfl
    rw [e, herr, hstage]
    exact ⟨he, rfl⟩

theorem applyOps_err_stable (ops : List Op) (m : HttpMessage) (he : m.err = true)
    (hs : m.stage ≠ .messageComplete) :
    (applyOps m ops).err = true ∧ (applyOps m ops).stage = m.stage := by
  induction ops generalizing m with
  | nil => exact ⟨he, rfl⟩
  | cons op rest ih =>
    have e : applyOps m (op :: rest) = applyOps (applyOp m op) rest := rfl
    obtain ⟨h1, h2⟩ := applyOp_err_stable m op he hs
    obtain ⟨h3, h4⟩ := ih (applyOp m op) h1 (by rw [h2]; exact hs)
    rw [e]
    exact ⟨h3, h4.trans h2⟩

theorem OnBody_reject (m : HttpMessage) (r : ProgressiveReader) (d : List Char)
    (rest : List Bool) (hr : m.bodyReader = some r) (hs : r.script = false :: rest) :
    OnBody m d = ({ m with bodyReader := none, feedFailed := true, produced := m.produced ++ d, detachedReaders := m.detachedReaders ++ [⟨r.received, rest, r.sawEnd⟩] },
      false) := by
  simp [OnBody, hr, readerFeed, hs]

/-- States of the tokenizer from which the next byte is a body byte. -/
def InBodyState (m : HttpMessage) : Prop :=
  m.ps = PS.bodyEof
  ∨ (m.ps = PS.bodyCL ∧ m.bodyRemaining ≠ 0)
  ∨ (m.ps = PS.bodyChunk ∧ m.bodyRemaining ≠ 0)

instance (m : HttpMessage) : Decidable (InBodyState m) := by
  unfold InBodyState
  infer_instance

/-- Claim C3: when the delivery of a body byte to the attached reader fails,
the message records a parse failure (its `err` flag is set and its stage is
Body, and under every sequence of further operations the stage never becomes
Complete), the reader is detached with its state recorded in the detached
ghost list having received nothing from the failed call, and that record
persists unchanged under all further operations — no further body bytes are
ever delivered to that reader. -/
theorem c3_delivery_failure_fails_message (m : HttpMessage) (r : ProgressiveReader) (c : Char)
    (herr : m.err = false) (hr : m.bodyReader = some r)
    (hrej : r.script.head? = some false) (hb : InBodyState m) :
    (stepByte m c).err = true
    ∧ (stepByte m c).bodyReader = none
    ∧ (stepByte m c).stage = .body
    ∧ ∃ r', (stepByte m c).detachedReaders = m.detachedReaders ++ [r']
        ∧ r'.received = r.received
        ∧ ∀ ops, (applyOps (stepByte m c) ops).stage ≠ .messageComplete
            ∧ ∃ tail, (applyOps (stepByte m c) ops).detachedReaders
                = m.detachedReaders ++ [r'] ++ tail := by
  obtain ⟨rest, hs⟩ : ∃ rest, r.script = false :: rest := by
    cases hsc : r.script with
    | nil => rw [hsc] at hrej; exact nomatch hrej
    | cons b rest =>
      rw [hsc] at hrej
      have : b = false := by simpa using hrej
      exact ⟨rest, by rw [this]⟩
  have hsb : stepByte m c = stepCore m c := by simp [stepByte, herr]
  have key : (stepCore m c).err = true ∧ (stepCore m c).bodyReader = none
      ∧ (stepCore m c).stage = .body
      ∧ (stepCore m c).detachedReaders
          = m.detachedReaders ++ [⟨r.received, rest, r.sawEnd⟩] := by
    rcases hb with hps | ⟨hps, hk0⟩ | ⟨hps, hk0⟩
    · have hO := OnBody_reject { m with stage := .body } r [c] rest (by simp [hr]) hs
      rw [hps] at hO
      simp [stepCore, hps, hO]
    · obtain ⟨k, hk⟩ := Nat.exists_eq_succ_of_ne_zero hk0
      have hO := OnBody_reject { m with stage := .body, bodyRemaining := k } r [c] rest
        (by simp [hr]) hs
      rw [hps] at hO
      simp [stepCore, hps, hk, hO]
    · obtain ⟨k, hk⟩ := Nat.exists_eq_succ_of_ne_zero hk0
      cases k with
      | zero =>
        have hO := OnBody_reject { m with stage := .body, bodyRemaining := 0, ps := PS.chunkCR } r [c] rest (by simp [hr]) hs
        simp [stepCore, hps, hk, hO]
      | succ j =>
        have hO := OnBody_reject { m with stage := .body, bodyRemaining := j + 1, ps := PS.bodyChunk } r [c] rest (by simp [hr]) hs
        simp [stepCore, hps, hk, hO]
  rw [hsb]
  refine ⟨key.1, key.2.1, key.2.2.1, ⟨r.received, rest, r.sawEnd⟩, key.2.2.2, rfl, ?_⟩
  intro ops
  obtain ⟨hoe, hos⟩ := applyOps_err_stable ops (stepCore m c) key.1
    (by rw [key.2.2.1]; intro hcon; exact nomatch hcon)
  obtain ⟨_, ⟨t, ht⟩, _, _, _⟩ := applyOps_facts ops (stepCore m c)
  refine ⟨?_, ⟨t, ?_⟩⟩
  · rw [hos, key.2.2.1]
    intro hcon
    exact nomatch hcon
  · rw [ht, key.2.2.2, List.append_assoc]

/-- Claim C7 (amended) : `MakeRawHttpRequest` injects a `Host` header derived
from the remote endpoint when absent; both builders inject `Content-Length`
computed from the content length when the header declares no body-length or
encoding strategy; the normalizations are reflected in the header object the
caller passed in (the returned header component); both outputs end with the
content bytes; the response builder clears the caller's content buffer after
use, while the request builder takes its content as a pointer to const and
leaves the caller's buffer unchanged (not drained). -/
theorem c7_builders_normalize (h : HttpHeader) (remote content : List Char) :
    (MakeRawHttpRequest h remote content).2.1
        = addContentLength (addHostIfAbsent h remote) content.length
    ∧ (MakeRawHttpResponse h content).2.1 = addContentLength h content.length
    ∧ (findHeader h.fields (str "host") = none →
        (addHostIfAbsent h remote).fields = h.fields ++ [(str "Host", remote)])
    ∧ (findHeader h.fields (str "content-length") = none →
        findHeader h.fields (str "transfer-encoding") = none →
        (addContentLength h content.length).fields
          = h.fields ++ [(str "Content-Length", natDigits content.length)])
    ∧ (∃ pre, (MakeRawHttpRequest h remote content).1 = pre ++ content)
    ∧ (∃ pre, (MakeRawHttpResponse h content).1 = pre ++ content)
    ∧ (MakeRawHttpResponse h content).2.2 = []
    ∧ (MakeRawHttpRequest h remote content).2.2 = content := by
  refine ⟨rfl, rfl, ?_, ?_, ?_, ?_, rfl, rfl⟩
  · intro h1
    simp [addHostIfAbsent, h1]
  · intro h1 h2
    simp [addContentLength, h1, h2]
  · refine ⟨(addContentLength (addHostIfAbsent h remote) content.length).method ++ [' ']
      ++ (addContentLength (addHostIfAbsent h remote) content.length).uri
      ++ str " HTTP/1.1" ++ crlf
      ++ renderFields (addContentLength (addHostIfAbsent h remote) content.length).fields
      ++ crlf, ?_⟩
    simp [MakeRawHttpRequest, List.append_assoc]
  · refine ⟨str "HTTP/1.1 " ++ natDigits (addContentLength h content.length).statusCode
      ++ str " OK" ++ crlf
      ++ renderFields (addContentLength h content.length).fields ++ crlf, ?_⟩
    simp [MakeRawHttpResponse, List.append_assoc]

/-- The concrete request of spec section 8. -/
def scenarioBytes : List Char :=
  str "GET /x HTTP/1.1\r\nHost: a\r\nContent-Length: 5\r\n\r\nhello"

/-- The scenario message fully parsed. -/
def scenDone : HttpMessage := (ParseFromArray initMsg scenarioBytes).1

/-- A request parsed up to two of its five body bytes: "ab" sits in the body
buffer, three bytes are still expected. -/
def postPartial : HttpMessage :=
  (ParseFromArray initMsg (str "POST /x HTTP/1.1\r\nContent-Length: 5\r\n\r\nab")).1

/-- The same request parsed exactly to the end of its headers. -/
def hdrOnly : HttpMessage :=
  (ParseFromArray initMsg (str "POST /x HTTP/1.1\r\nContent-Length: 5\r\n\r\n")).1

/-- A message stopped in the middle of a header name. -/
def midHdrMsg : HttpMessage :=
  (ParseFromArray initMsg (str "GET /x HTTP/1.1\r\nHo")).1

def freshReader : ProgressiveReader := ⟨[], [], false⟩

def rejectReader : ProgressiveReader := ⟨[], [false], false⟩

def c5CexOps : List Op :=
  [Op.parseArr (str "POST /x HTTP/1.1\r\nContent-Length: 5\r\n\r\nab"),
   Op.setReader rejectReader]

set_option maxRecDepth 10000 in
/-- Claim C5 counterexample: after buffering two body bytes and then
attaching a reader that rejects the attachment flush, the message is not
failed (`err` is false, parsing may continue at stage Body), yet the two
flushed-and-rejected bytes are in neither the body buffer nor the delivered
bytes: the claimed accounting invariant is violated at this point. -/
theorem c5_counterexample :
    (applyOps initMsg c5CexOps).delivered ++ (applyOps initMsg c5CexOps).body
        ≠ (applyOps initMsg c5CexOps).produced
    ∧ (applyOps initMsg c5CexOps).err = false
    ∧ (applyOps initMsg c5CexOps).stage = HttpParserStage.body := by decide

set_option maxRecDepth 10000 in
theorem c5_body_accounting_witness :
    (applyOps initMsg [Op.parseArr scenarioBytes]).feedFailed = false
    ∧ (applyOps initMsg [Op.parseArr scenarioBytes]).delivered
        ++ (applyOps initMsg [Op.parseArr scenarioBytes]).body
        = (applyOps initMsg [Op.parseArr scenarioBytes]).produced :=
  ⟨by decide, c5_body_accounting [Op.parseArr scenarioBytes] (by decide)⟩

set_option maxRecDepth 10000 in
/-- Claim C6 counterexample: on a message stopped inside a header name, the
empty segmented buffer is silently ignored (returning 0) while the empty
contiguous range is treated as EOF and fails — the two entry points are not
equivalent on empty input, although `[].flatten` and `[]` are the same
bytes. -/
theorem c6_counterexample :
    ParseFromIOBuf midHdrMsg [] ≠ ParseFromArray midHdrMsg ([] : List (List Char)).flatten
    ∧ (ParseFromIOBuf midHdrMsg []).2 = some 0
    ∧ (ParseFromArray midHdrMsg []).2 = none := by decide

set_option maxRecDepth 10000 in
theorem c6_segmented_equiv_witness :
    ([str "GET /x HT", str "TP/1.1\r\n\r\n"] : List (List Char)).flatten ≠ []
    ∧ ParseFromIOBuf initMsg [str "GET /x HT", str "TP/1.1\r\n\r\n"]
        = ParseFromArray initMsg ([str "GET /x HT", str "TP/1.1\r\n\r\n"] : List (List Char)).flatten :=
  ⟨by decide, c6_segmented_equiv_nonempty initMsg [str "GET /x HT", str "TP/1.1\r\n\r\n"] (by decide)⟩

/-- Claim C7 counterexample: the request builder does not drain the caller's
content buffer — its content parameter is a pointer to const
(`http_message.h` line 145) and comes back unchanged, here still "abc". -/
theorem c7_counterexample :
    (MakeRawHttpRequest ⟨str "GET", str "/x", 200, []⟩ (str "h") (str "abc")).2.2 = str "abc"
    ∧ str "abc" ≠ ([] : List Char) := by decide

set_option maxRecDepth 10000 in
theorem c7_builders_normalize_witness :
    findHeader (HttpHeader.fields ⟨str "GET", str "/x", 200, []⟩) (str "host") = none
    ∧ (MakeRawHttpRequest ⟨str "GET", str "/x", 200, []⟩ (str "1.2.3.4:80") (str "abc")).2.1
        = addContentLength (addHostIfAbsent ⟨str "GET", str "/x", 200, []⟩ (str "1.2.3.4:80")) 3
    ∧ (addHostIfAbsent ⟨str "GET", str "/x", 200, []⟩ (str "1.2.3.4:80")).fields
        = [(str "Host", str "1.2.3.4:80")]
    ∧ (MakeRawHttpResponse ⟨str "GET", str "/x", 200, []⟩ (str "abc")).2.2 = [] := by
  refine ⟨by decide, (c7_builders_normalize ⟨str "GET", str "/x", 200, []⟩ (str "1.2.3.4:80") (str "abc")).1, by decide, (c7_builders_normalize ⟨str "GET", str "/x", 200, []⟩ (str "1.2.3.4:80") (str "abc")).2.2.2.2.2.2.1⟩

set_option maxRecDepth 10000 in
theorem c9_zero_length_noop_witness :
    scenDone.stage = HttpParserStage.messageComplete
    ∧ ParseFromArray scenDone [] = (scenDone, some 0) :=
  ⟨by decide, c9_zero_length_noop_after_complete scenDone (by decide)⟩

set_option maxRecDepth 10000 in
theorem c2_attach_flushes_witness :
    postPartial.bodyReader = none
    ∧ freshReader.script.head? ≠ some false
    ∧ ∃ r', (SetBodyReader postPartial freshReader).1.bodyReader = some r'
      ∧ r'.received = freshReader.received ++ postPartial.body
      ∧ (SetBodyReader postPartial freshReader).1.body = []
      ∧ (SetBodyReader postPartial freshReader).2
          = [Ev.lock, Ev.unlock]
            ++ (if postPartial.body.isEmpty then [] else [Ev.feedReader postPartial.body])
      ∧ (∀ d, (OnBody (SetBodyReader postPartial freshReader).1 d).2 = true →
          ∃ r'', (OnBody (SetBodyReader postPartial freshReader).1 d).1.bodyReader = some r''
            ∧ r''.received = (freshReader.received ++ postPartial.body) ++ d) :=
  ⟨by decide, by decide,
   c2_attach_flushes_buffered postPartial freshReader (by decide) (by decide)⟩

set_option maxRecDepth 10000 in
theorem c10_attach_flush_failure_witness :
    postPartial.bodyReader = none
    ∧ postPartial.body ≠ []
    ∧ rejectReader.script.head? = some false
    ∧ ∃ r', (SetBodyReader postPartial rejectReader).1.bodyReader = none
      ∧ (SetBodyReader postPartial rejectReader).1.destroyedReaders
          = postPartial.destroyedReaders ++ [r']
      ∧ r'.received = rejectReader.received
      ∧ (SetBodyReader postPartial rejectReader).2
          = [Ev.lock, Ev.unlock, Ev.feedReader postPartial.body, Ev.destroyReader]
      ∧ (∀ ops, ∃ tail, (applyOps (SetBodyReader postPartial rejectReader).1 ops).destroyedReaders
          = postPartial.destroyedReaders ++ [r'] ++ tail) :=
  ⟨by decide, by decide, by decide,
   c10_attach_flush_failure_destroys postPartial rejectReader (by decide) (by decide) (by decide)⟩

/-- A message at the start of its body with a rejecting reader attached. -/
def hdrOnlyRejecting : HttpMessage := (SetBodyReader hdrOnly rejectReader).1

set_option maxRecDepth 10000 in
theorem c3_delivery_failure_witness :
    hdrOnlyRejecting.err = false
    ∧ hdrOnlyRejecting.bodyReader = some rejectReader
    ∧ rejectReader.script.head? = some false
    ∧ InBodyState hdrOnlyRejecting
    ∧ (stepByte hdrOnlyRejecting 'h').err = true
    ∧ (stepByte hdrOnlyRejecting 'h').bodyReader = none
    ∧ (stepByte hdrOnlyRejecting 'h').stage = HttpParserStage.body
    ∧ ∃ r', (stepByte hdrOnlyRejecting 'h').detachedReaders
          = hdrOnlyRejecting.detachedReaders ++ [r']
        ∧ r'.received = rejectReader.received
        ∧ ∀ ops, (applyOps (stepByte hdrOnlyRejecting 'h') ops).stage
              ≠ HttpParserStage.messageComplete
            ∧ ∃ tail, (applyOps (stepByte hdrOnlyRejecting 'h') ops).detachedReaders
                = hdrOnlyRejecting.detachedReaders ++ [r'] ++ tail :=
  ⟨by decide, by decide, by decide, by decide,
   (c3_delivery_failure_fails_message hdrOnlyRejecting rejectReader 'h'
      (by decide) (by decide) (by decide) (by decide)).1,
   (c3_delivery_failure_fails_message hdrOnlyRejecting rejectReader 'h'
      (by decide) (by decide) (by decide) (by decide)).2.1,
   (c3_delivery_failure_fails_message hdrOnlyRejecting rejectReader 'h'
      (by decide) (by decide) (by decide) (by decide)).2.2.1,
   (c3_delivery_failure_fails_message hdrOnlyRejecting rejectReader 'h'
      (by decide) (by decide) (by decide) (by decide)).2.2.2⟩

theorem stepCore_invCD (m : HttpMessage) (c : Char)
    (hInv : m.stage = .messageComplete → m.ps = .done) :
    (stepCore m c).stage = .messageComplete → (stepCore m c).ps = .done := by
  obtain ⟨st, ps, er, pl, hd, isr, ac, ch, cv, fr, br, ca, bd, rd, dv, pr, ff, dt, ds⟩ := m
  cases ps
  all_goals
    try (simp only [stepCore]
         split_ifs <;> (intro hc; simp_all)
         done)
  case finalLF =>
    cases cv <;>
      (simp only [stepCore, onHeadersDone, commitPending]
       split_ifs
       all_goals try (repeat' split)
       all_goals try (cases rd)
       all_goals intro hc
       all_goals simp_all [OnMessageComplete])
  case bodyCL =>
    cases br with
    | zero => intro hc; exact nomatch (hInv hc)
    | succ k =>
      cases rd with
      | none => cases k <;> first | exact fun _ => rfl | (intro hc; exact nomatch hc)
      | some r =>
        obtain ⟨rcv, scr, se⟩ := r
        rcases scr with _ | ⟨b, rest⟩
        · cases k <;> first | exact fun _ => rfl | (intro hc; exact nomatch hc)
        · cases b <;> cases k <;>
            first | exact fun _ => rfl | (intro hc; exact nomatch hc)
  case bodyEof =>
    cases rd with
    | none => intro hc; exact nomatch hc
    | some r =>
      obtain ⟨rcv, scr, se⟩ := r
      rcases scr with _ | ⟨b, rest⟩
      · intro hc; exact nomatch hc
      · cases b <;> (intro hc; exact nomatch hc)
  case bodyChunk =>
    cases br with
    | zero => intro hc; exact nomatch (hInv hc)
    | succ k =>
      cases rd with
      | none => cases k <;> (intro hc; exact nomatch hc)
      | some r =>
        obtain ⟨rcv, scr, se⟩ := r
        rcases scr with _ | ⟨b, rest⟩
        · cases k <;> (intro hc; exact nomatch hc)
        · cases b <;> cases k <;> (intro hc; exact nomatch hc)
  case trailLF =>
    simp only [stepCore]
    split_ifs
    · cases rd <;> exact fun _ => rfl
    · intro hc; simp_all
  case done => intro hc; rfl

theorem stepByte_invCD (m : HttpMessage) (c : Char)
    (hInv : m.stage = .messageComplete → m.ps = .done) :
    (stepByte m c).stage = .messageComplete → (stepByte m c).ps = .done := by
  by_cases h : m.err = true
  · rw [stepByte_err m c h]; exact hInv
  · have he : stepByte m c = stepCore m c := by simp [stepByte, h]
    rw [he]; exact stepCore_invCD m c hInv

theorem runBytes_invCD (l : List Char) (m : HttpMessage)
    (hInv : m.stage = .messageComplete → m.ps = .done) :
    (runBytes m l).stage = .messageComplete → (runBytes m l).ps = .done := by
  induction l generalizing m with
  | nil => exact hInv
  | cons c l ih => rw [runBytes_cons]; exact ih (stepByte m c) (stepByte_invCD m c hInv)

theorem stepByte_done (m : HttpMessage) (c : Char) (he : m.err = false)
    (hps : m.ps = .done) : stepByte m c = { m with err := true } := by
  simp [stepByte, he, stepCore, hps]

/-- A byte sequence that forms one valid, complete HTTP/1.x message: feeding
it from a fresh message succeeds (no tokenizer error) and ends at stage
Complete. -/
def ValidMessage (bytes : List Char) : Prop :=
  bytes ≠ [] ∧ (runBytes initMsg bytes).err = false
  ∧ (runBytes initMsg bytes).stage = .messageComplete

/-- A proper prefix of an error-free run neither errors nor completes. -/
theorem run_prefix_ok (p q : List Char) (hq : q ≠ [])
    (hok : (runBytes initMsg (p ++ q)).err = false) :
    (runBytes initMsg p).err = false
    ∧ (runBytes initMsg p).stage ≠ .messageComplete := by
  have hap : runBytes initMsg (p ++ q) = runBytes (runBytes initMsg p) q :=
    runBytes_append initMsg p q
  have herrp : (runBytes initMsg p).err = false := by
    by_contra hcon
    have ht : (runBytes initMsg p).err = true := by simpa using hcon
    rw [hap, runBytes_err _ q ht, ht] at hok
    exact nomatch hok
  refine ⟨herrp, ?_⟩
  intro hcm
  have hps : (runBytes initMsg p).ps = .done :=
    runBytes_invCD p initMsg (fun hc => nomatch hc) hcm
  obtain ⟨c, q', rfl⟩ : ∃ c q', q = c :: q' := by
    cases q with
    | nil => exact absurd rfl hq
    | cons c q' => exact ⟨c, q', rfl⟩
  have hstep : stepByte (runBytes initMsg p) c
      = { runBytes initMsg p with err := true } :=
    stepByte_done _ c herrp hps
  have htrue : ({ runBytes initMsg p with err := true } : HttpMessage).err = true := rfl
  rw [hap, runBytes_cons, hstep, runBytes_err _ q' htrue, htrue] at hok
  exact nomatch hok

theorem c1_aux (bytes : List Char) (hv : ValidMessage bytes) (pieces : List (List Char)) :
    ∀ pre, (∀ p ∈ pieces, p ≠ []) → pre ++ pieces.flatten = bytes →
    pieces.foldl (fun s p => (ParseFromArray s p).1)
        { runBytes initMsg pre with parsedLength := initMsg.parsedLength + pre.length }
      = { runBytes initMsg bytes with parsedLength := initMsg.parsedLength + bytes.length } := by
  induction pieces with
  | nil =>
    intro pre _ hcat
    simp only [List.flatten_nil, List.append_nil] at hcat
    subst hcat
    rfl
  | cons p rest ih =>
    intro pre hnz hcat
    have hpne : p ≠ [] := hnz p (by simp)
    have hcat2 : (pre ++ p) ++ rest.flatten = bytes := by
      rw [List.append_assoc]
      simpa using hcat
    have hqne : p ++ rest.flatten ≠ [] := by
      cases p with
      | nil => exact absurd rfl hpne
      | cons a l => simp
    have hokpre : (runBytes initMsg pre).err = false
        ∧ (runBytes initMsg pre).stage ≠ .messageComplete := by
      apply run_prefix_ok pre (p ++ rest.flatten) hqne
      have : pre ++ (p ++ rest.flatten) = bytes := by simpa using hcat
      rw [this]
      exact hv.2.1
    have herr2 : (runBytes initMsg (pre ++ p)).err = false := by
      cases hrf : rest.flatten with
      | nil =>
        have : pre ++ p = bytes := by rw [← hcat2, hrf, List.append_nil]
        rw [this]
        exact hv.2.1
      | cons a l =>
        refine (run_prefix_ok (pre ++ p) rest.flatten (by rw [hrf]; simp) ?_).1
        rw [hcat2]
        exact hv.2.1
    have hfold : List.foldl (fun s p => (ParseFromArray s p).1)
        { runBytes initMsg pre with parsedLength := initMsg.parsedLength + pre.length }
        (p :: rest)
        = List.foldl (fun s p => (ParseFromArray s p).1)
            (ParseFromArray { runBytes initMsg pre with
              parsedLength := initMsg.parsedLength + pre.length } p).1 rest := rfl
    have hrun : runBytes { runBytes initMsg pre with
          parsedLength := initMsg.parsedLength + pre.length } p
        = { runBytes initMsg (pre ++ p) with
            parsedLength := initMsg.parsedLength + pre.length } := by
      rw [runBytes_parsed, runBytes_append]
    have hstep : (ParseFromArray { runBytes initMsg pre with
          parsedLength := initMsg.parsedLength + pre.length } p).1
        = { runBytes initMsg (pre ++ p) with
            parsedLength := initMsg.parsedLength + (pre ++ p).length } := by
      unfold ParseFromArray
      rw [if_neg (by simpa using hokpre.2), if_neg (by simpa using hokpre.1),
        if_neg (by simpa using hpne)]
      dsimp only
      rw [hrun]
      rw [if_neg (by simpa using herr2)]
      simp [List.length_append, Nat.add_assoc]
    rw [hfold, hstep]
    exact ih (pre ++ p) (fun x hx => hnz x (by simp [hx])) hcat2

/-- Claim C1: for every byte sequence forming one valid HTTP/1.x message,
feeding it through `ParseFromArray` split at arbitrary boundaries (any
number of nonempty pieces, any split points) produces exactly the same
final message state — header fields, body content, stage, parsed length and
all — as feeding the whole sequence in a single call. -/
theorem c1_chunk_boundary_insensitive (bytes : List Char) (pieces : List (List Char))
    (hv : ValidMessage bytes) (hnz : ∀ p ∈ pieces, p ≠ [])
    (hcat : pieces.flatten = bytes) :
    pieces.foldl (fun s p => (ParseFromArray s p).1) initMsg
      = (ParseFromArray initMsg bytes).1 := by
  have haux := c1_aux bytes hv pieces [] hnz (by simpa using hcat)
  have h0 : ({ runBytes initMsg [] with
      parsedLength := initMsg.parsedLength + ([] : List Char).length } : HttpMessage)
      = initMsg := rfl
  rw [h0] at haux
  rw [haux]
  unfold ParseFromArray
  rw [if_neg (show ¬initMsg.stage = HttpParserStage.messageComplete by decide),
      if_neg (show ¬initMsg.err = true by decide),
      if_neg (by simpa using hv.1)]
  dsimp only
  rw [if_neg (by simpa using hv.2.1)]

/-- The scenario of spec section 8 split at bytes 10 and 25. -/
def scenarioPieces : List (List Char) :=
  [scenarioBytes.take 10, (scenarioBytes.drop 10).take 15, scenarioBytes.drop 25]

set_option maxRecDepth 10000 in
theorem c1_chunk_boundary_witness :
    ValidMessage scenarioBytes
    ∧ (∀ p ∈ scenarioPieces, p ≠ [])
    ∧ scenarioPieces.flatten = scenarioBytes
    ∧ scenarioPieces.foldl (fun s p => (ParseFromArray s p).1) initMsg
        = (ParseFromArray initMsg scenarioBytes).1 :=
  ⟨⟨by decide, by decide, by decide⟩, by decide, by decide,
   c1_chunk_boundary_insensitive scenarioBytes scenarioPieces
     ⟨by decide, by decide, by decide⟩ (by decide) (by decide)⟩

theorem digitsValFrom_append (a : Nat) (xs ys : List Char) :
    digitsValFrom a (xs ++ ys) = digitsValFrom (digitsValFrom a xs) ys :=
  List.foldl_append ..

theorem digitVal_ofNat (k : Nat) (hk : k < 10) :
    digitVal (Char.ofNat (48 + k)) = k := by
  interval_cases k <;> decide

theorem isDigit_ofNat (k : Nat) (hk : k < 10) :
    (Char.ofNat (48 + k)).isDigit = true := by
  interval_cases k <;> decide

theorem natDigitsAux_val (fuel : Nat) :
    ∀ n, n < fuel → digitsVal (natDigitsAux fuel n) = n := by
  induction fuel with
  | zero => intro n hn; exact absurd hn (Nat.not_lt_zero n)
  | succ fuel ih =>
    intro n hn
    unfold natDigitsAux
    split_ifs with h10
    · show digitsValFrom 0 [Char.ofNat (48 + n)] = n
      show 0 * 10 + digitVal (Char.ofNat (48 + n)) = n
      rw [digitVal_ofNat n h10]
      omega
    · have hd : n / 10 < fuel := by
        have h1 : n / 10 < n := Nat.div_lt_self (by omega) (by omega)
        omega
      show digitsVal (natDigitsAux fuel (n / 10) ++ [Char.ofNat (48 + n % 10)]) = n
      rw [show digitsVal (natDigitsAux fuel (n / 10) ++ [Char.ofNat (48 + n % 10)])
          = digitsValFrom (digitsVal (natDigitsAux fuel (n / 10)))
              [Char.ofNat (48 + n % 10)] from digitsValFrom_append ..]
      show digitsVal (natDigitsAux fuel (n / 10)) * 10 + digitVal (Char.ofNat (48 + n % 10)) = n
      rw [ih (n / 10) hd, digitVal_ofNat (n % 10) (Nat.mod_lt n (by omega))]
      omega

theorem natDigitsAux_all_digits (fuel : Nat) :
    ∀ n, n < fuel → ∀ c ∈ natDigitsAux fuel n, c.isDigit = true := by
  induction fuel with
  | zero => intro n hn; exact absurd hn (Nat.not_lt_zero n)
  | succ fuel ih =>
    intro n hn c hc
    unfold natDigitsAux at hc
    split_ifs at hc with h10
    · simp at hc
      rw [hc]
      exact isDigit_ofNat n h10
    · rw [List.mem_append] at hc
      rcases hc with hc | hc
      · have hd : n / 10 < fuel := by
          have h1 : n / 10 < n := Nat.div_lt_self (by omega) (by omega)
          omega
        exact ih (n / 10) hd c hc
      · simp at hc
        rw [hc]
        exact isDigit_ofNat (n % 10) (Nat.mod_lt n (by omega))

theorem natDigits_ne_nil (n : Nat) : natDigits n ≠ [] := by
  unfold natDigits natDigitsAux
  split_ifs <;> simp

theorem natDigits_val (n : Nat) : digitsVal (natDigits n) = n :=
  natDigitsAux_val (n + 1) n (Nat.lt_succ_self n)

theorem natDigits_all_digits (n : Nat) : ∀ c ∈ natDigits n, c.isDigit = true :=
  natDigitsAux_all_digits (n + 1) n (Nat.lt_succ_self n)

theorem digitsToNat_natDigits (n : Nat) : digitsToNat (natDigits n) = some n := by
  unfold digitsToNat
  rw [if_pos, natDigits_val]
  rw [Bool.and_eq_true]
  constructor
  · cases hd : natDigits n with
    | nil => exact absurd hd (natDigits_ne_nil n)
    | cons a l => rfl
  · rw [List.all_eq_true]
    intro c hc
    exact natDigits_all_digits n c hc

theorem isMethodChar_ne_space (c : Char) (h : isMethodChar c = true) : (c == ' ') = false := by
  rw [beq_eq_false_iff_ne]
  rintro rfl
  exact absurd h (by decide)

theorem isMethodChar_ne_slash (c : Char) (h : isMethodChar c = true) : (c == '/') = false := by
  rw [beq_eq_false_iff_ne]
  rintro rfl
  exact absurd h (by decide)

theorem isUrlChar_ne_space (c : Char) (h : isUrlChar c = true) : (c == ' ') = false := by
  unfold isUrlChar at h
  rw [Bool.not_eq_true'] at h
  simp only [Bool.or_eq_false_iff] at h
  exact h.1.1

theorem isFieldNameChar_ne_cr (c : Char) (h : isFieldNameChar c = true) : (c == '\r') = false := by
  rw [beq_eq_false_iff_ne]
  rintro rfl
  exact absurd h (by decide)

theorem isFieldNameChar_ne_colon (c : Char) (h : isFieldNameChar c = true) : (c == ':') = false := by
  rw [beq_eq_false_iff_ne]
  rintro rfl
  exact absurd h (by decide)

theorem isValueChar_ne_cr (c : Char) (h : isValueChar c = true) : (c == '\r') = false := by
  unfold isValueChar at h
  rw [Bool.not_eq_true'] at h
  simp only [Bool.or_eq_false_iff] at h
  exact h.1

theorem isDigit_isValueChar (c : Char) (h : c.isDigit = true) : isValueChar c = true := by
  unfold isValueChar
  rw [Bool.not_eq_true']
  simp only [Bool.or_eq_false_iff]
  constructor <;> (rw [beq_eq_false_iff_ne]; rintro rfl; exact absurd h (by decide))

theorem isDigit_ne_space (c : Char) (h : c.isDigit = true) : ¬c = ' ' := by
  rintro rfl
  exact absurd h (by decide)

theorem findHeader_append_none (a b : List (List Char × List Char)) (nm : List Char)
    (h : findHeader a nm = none) : findHeader (a ++ b) nm = findHeader b nm := by
  induction a with
  | nil => rfl
  | cons p rest ih =>
    obtain ⟨pn, pv⟩ := p
    have hg : findHeader (((pn, pv) :: rest) ++ b) nm
        = if lowerEq pn nm = true then some pv else findHeader (rest ++ b) nm := rfl
    have hh : findHeader ((pn, pv) :: rest) nm
        = if lowerEq pn nm = true then some pv else findHeader rest nm := rfl
    rw [hh] at h
    rw [hg]
    split_ifs at h ⊢ with hl
    exact ih h

theorem findHeader_append_some (a b : List (List Char × List Char)) (nm v : List Char)
    (h : findHeader a nm = some v) : findHeader (a ++ b) nm = some v := by
  induction a with
  | nil => simp [findHeader] at h
  | cons p rest ih =>
    obtain ⟨pn, pv⟩ := p
    have hg : findHeader (((pn, pv) :: rest) ++ b) nm
        = if lowerEq pn nm = true then some pv else findHeader (rest ++ b) nm := rfl
    have hh : findHeader ((pn, pv) :: rest) nm
        = if lowerEq pn nm = true then some pv else findHeader rest nm := rfl
    rw [hh] at h
    rw [hg]
    split_ifs at h ⊢ with hl
    · exact h
    · exact ih h

theorem run_methTok (l : List Char) : ∀ m : HttpMessage, m.ps = PS.methTok → m.err = false →
    (∀ c ∈ l, isMethodChar c = true) → runBytes m l = { m with acc := m.acc ++ l } := by
  induction l with
  | nil => intro m _ _ _; simp [runBytes_nil]
  | cons c l ih =>
    intro m hps he hl
    have hc := hl c (by simp)
    have hstep : stepByte m c = { m with acc := m.acc ++ [c] } := by
      simp [stepByte, he, stepCore, hps, isMethodChar_ne_space c hc,
        isMethodChar_ne_slash c hc, hc]
    rw [runBytes_cons, hstep,
      ih _ (by simp [hps]) (by simp [he]) (fun x hx => hl x (by simp [hx]))]
    simp

theorem run_reqUrl (l : List Char) : ∀ m : HttpMessage, m.ps = PS.reqUrl → m.err = false →
    (∀ c ∈ l, isUrlChar c = true) → runBytes m l = { m with acc := m.acc ++ l } := by
  induction l with
  | nil => intro m _ _ _; simp [runBytes_nil]
  | cons c l ih =>
    intro m hps he hl
    have hc := hl c (by simp)
    have hstep : stepByte m c = { m with acc := m.acc ++ [c] } := by
      simp [stepByte, he, stepCore, hps, isUrlChar_ne_space c hc, hc]
    rw [runBytes_cons, hstep,
      ih _ (by simp [hps]) (by simp [he]) (fun x hx => hl x (by simp [hx]))]
    simp

theorem run_hdrField (l : List Char) : ∀ m : HttpMessage, m.ps = PS.hdrField → m.err = false →
    (∀ c ∈ l, isFieldNameChar c = true) →
    runBytes m l = { m with curHeader := m.curHeader ++ l } := by
  induction l with
  | nil => intro m _ _ _; simp [runBytes_nil]
  | cons c l ih =>
    intro m hps he hl
    have hc := hl c (by simp)
    have hstep : stepByte m c = { m with curHeader := m.curHeader ++ [c] } := by
      simp [stepByte, he, stepCore, hps, isFieldNameChar_ne_colon c hc, hc]
    rw [runBytes_cons, hstep,
      ih _ (by simp [hps]) (by simp [he]) (fun x hx => hl x (by simp [hx]))]
    simp

theorem run_hdrValue (l : List Char) : ∀ (m : HttpMessage) (v : List Char),
    m.ps = PS.hdrValue → m.err = false → m.curValue = some v →
    (∀ c ∈ l, isValueChar c = true) →
    runBytes m l = { m with curValue := some (v ++ l) } := by
  induction l with
  | nil =>
    intro m v _ _ hcv _
    rw [runBytes_nil]
    conv_rhs => rw [List.append_nil, ← hcv]
  | cons c l ih =>
    intro m v hps he hcv hl
    have hc := hl c (by simp)
    have hstep : stepByte m c = { m with curValue := some (v ++ [c]) } := by
      simp [stepByte, he, stepCore, hps, isValueChar_ne_cr c hc, hc, hcv]
    rw [runBytes_cons, hstep,
      ih _ (v ++ [c]) (by simp [hps]) (by simp [he]) (by simp) (fun x hx => hl x (by simp [hx]))]
    simp

theorem run_respCode (l : List Char) : ∀ m : HttpMessage, m.ps = PS.respCode → m.err = false →
    (∀ c ∈ l, c.isDigit = true) →
    runBytes m l
      = { m with header := { m.header with
            statusCode := digitsValFrom m.header.statusCode l } } := by
  induction l with
  | nil => intro m _ _ _; simp [runBytes_nil, digitsValFrom]
  | cons c l ih =>
    intro m hps he hl
    have hc := hl c (by simp)
    have hstep : stepByte m c
        = { m with header := { m.header with
              statusCode := m.header.statusCode * 10 + digitVal c } } := by
      simp [stepByte, he, stepCore, hps, hc]
    rw [runBytes_cons, hstep,
      ih _ (by simp [hps]) (by simp [he]) (fun x hx => hl x (by simp [hx]))]
    have hdv : digitsValFrom (m.header.statusCode * 10 + digitVal c) l
        = digitsValFrom m.header.statusCode (c :: l) := rfl
    simp [hdv]

theorem run_reqVer_skip (l : List Char) : ∀ m : HttpMessage, m.ps = PS.reqVer → m.err = false →
    (∀ c ∈ l, (c == '\r') = false ∧ isVerChar c = true) → runBytes m l = m := by
  induction l with
  | nil => intro m _ _ _; rfl
  | cons c l ih =>
    intro m hps he hl
    obtain ⟨h1, h2⟩ := hl c (by simp)
    have hstep : stepByte m c = m := by
      simp [stepByte, he, stepCore, hps, h1, h2]
    rw [runBytes_cons, hstep]
    exact ih m hps he (fun x hx => hl x (by simp [hx]))

theorem run_respVer_skip (l : List Char) : ∀ m : HttpMessage, m.ps = PS.respVer → m.err = false →
    (∀ c ∈ l, (c == ' ') = false ∧ isVerChar c = true) → runBytes m l = m := by
  induction l with
  | nil => intro m _ _ _; rfl
  | cons c l ih =>
    intro m hps he hl
    obtain ⟨h1, h2⟩ := hl c (by simp)
    have hstep : stepByte m c = m := by
      simp [stepByte, he, stepCore, hps, h1, h2]
    rw [runBytes_cons, hstep]
    exact ih m hps he (fun x hx => hl x (by simp [hx]))

theorem run_respReason_skip (l : List Char) : ∀ m : HttpMessage,
    m.ps = PS.respReason → m.err = false →
    (∀ c ∈ l, (c == '\r') = false ∧ isValueChar c = true) → runBytes m l = m := by
  induction l with
  | nil => intro m _ _ _; rfl
  | cons c l ih =>
    intro m hps he hl
    obtain ⟨h1, h2⟩ := hl c (by simp)
    have hstep : stepByte m c = m := by
      simp [stepByte, he, stepCore, hps, h1, h2]
    rw [runBytes_cons, hstep]
    exact ih m hps he (fun x hx => hl x (by simp [hx]))

theorem run_body_cl (content : List Char) : ∀ m : HttpMessage,
    m.ps = PS.bodyCL → m.err = false → m.bodyReader = none →
    m.bodyRemaining = content.length → content ≠ [] →
    runBytes m content
      = { m with stage := .messageComplete, ps := .done, bodyRemaining := 0, body := m.body ++ content, produced := m.produced ++ content } := by
  induction content with
  | nil => intro m _ _ _ _ hne; exact absurd rfl hne
  | cons c rest ih =>
    intro m hps he hr hk _
    have hk2 : m.bodyRemaining = rest.length + 1 := by simpa using hk
    by_cases hre : rest = []
    · subst hre
      have hstep : stepByte m c
          = { m with stage := .messageComplete, ps := .done, bodyRemaining := 0, body := m.body ++ [c], produced := m.produced ++ [c] } := by
        simp [stepByte, he, stepCore, hps, hk2, OnBody, hr, OnMessageComplete]
      rw [runBytes_cons, hstep, runBytes_nil]
    · have hlen : rest.length ≠ 0 := by
        simpa [List.length_eq_zero] using hre
      have hbeq : (rest.length == 0) = false := by
        rw [beq_eq_false_iff_ne]
        exact hlen
      have hstep : stepByte m c
          = { m with stage := .body, ps := PS.bodyCL, bodyRemaining := rest.length, body := m.body ++ [c], produced := m.produced ++ [c] } := by
        simp [stepByte, he, stepCore, hps, hk2, OnBody, hr, hbeq]
      rw [runBytes_cons, hstep,
        ih _ (by simp) (by simp [he]) (by simp [hr]) (by simp) hre]
      simp
def pendL : Option (List Char × List Char) → List (List Char × List Char)
  | none => []
  | some p => [p]

/-- The canonical parser state at the start of a header line: headers `F`
committed, the pair `pend` still pending ("committed on next"), start-line
data already stored in `hd` and `isr`. -/
def hdrState (hd : HttpHeader) (isr : Bool) (s : HttpParserStage)
    (F : List (List Char × List Char)) (pend : Option (List Char × List Char)) : HttpMessage :=
  { stage := s, ps := .hdrStart, err := false, parsedLength := 0,
    header := { hd with fields := F }, isResponse := isr, acc := [],
    curHeader := (pend.map Prod.fst).getD [], curValue := pend.map Prod.snd,
    framing := .unset, bodyRemaining := 0, chunkAcc := 0, body := [],
    bodyReader := none, delivered := [], produced := [], feedFailed := false,
    detachedReaders := [], destroyedReaders := [] }

theorem commitPending_hdrState (hd : HttpHeader) (isr : Bool) (s : HttpParserStage)
    (F : List (List Char × List Char)) (pend : Option (List Char × List Char)) :
    commitPending (hdrState hd isr s F pend) = hdrState hd isr s (F ++ pendL pend) none := by
  cases pend with
  | none => simp [commitPending, hdrState, pendL]
  | some p =>
    obtain ⟨pn, pv⟩ := p
    simp [commitPending, hdrState, pendL]

theorem run_hdr_line (hd : HttpHeader) (isr : Bool) (s : HttpParserStage)
    (F : List (List Char × List Char)) (pend : Option (List Char × List Char))
    (n v : List Char) (hn : n ≠ []) (hnc : ∀ c ∈ n, isFieldNameChar c = true)
    (hvc : ∀ c ∈ v, isValueChar c = true) (hv0 : v.head? ≠ some ' ') :
    runBytes (hdrState hd isr s F pend) (n ++ str ": " ++ v ++ crlf)
      = hdrState hd isr .headerValue (F ++ pendL pend) (some (n, v)) := by
  obtain ⟨c0, n', rfl⟩ : ∃ c0 n', n = c0 :: n' := by
    cases n with
    | nil => exact absurd rfl hn
    | cons a l => exact ⟨a, l, rfl⟩
  have hc0 := hnc c0 (by simp)
  have hnc' : ∀ c ∈ n', isFieldNameChar c = true := fun c hc => hnc c (by simp [hc])
  rw [runBytes_append, runBytes_append, runBytes_append, runBytes_cons]
  have hA : stepByte (hdrState hd isr s F pend) c0
      = { hdrState hd isr s (F ++ pendL pend) none with
          ps := PS.hdrField, stage := .headerField, curHeader := [c0] } := by
    have h1 := isFieldNameChar_ne_cr c0 hc0
    show stepCore (hdrState hd isr s F pend) c0 = _
    show (if (c0 == '\r') = true then _ else _) = _
    rw [if_neg (by simp [h1]), if_pos hc0, commitPending_hdrState]
  rw [hA]
  have hB : runBytes ({ hdrState hd isr s (F ++ pendL pend) none with
        ps := PS.hdrField, stage := .headerField, curHeader := [c0] } : HttpMessage) n'
      = { hdrState hd isr s (F ++ pendL pend) none with
          ps := PS.hdrField, stage := .headerField, curHeader := c0 :: n' } := by
    rw [run_hdrField n' _ rfl rfl hnc']
    simp [hdrState]
  rw [hB]
  have hC : runBytes ({ hdrState hd isr s (F ++ pendL pend) none with
        ps := PS.hdrField, stage := .headerField, curHeader := c0 :: n' } : HttpMessage)
        (str ": ")
      = { hdrState hd isr s (F ++ pendL pend) none with
          ps := PS.hdrOWS, stage := .headerValue, curHeader := c0 :: n' } := by
    show runBytes _ [':', ' '] = _
    rw [runBytes_cons, runBytes_cons, runBytes_nil]
    rfl
  rw [hC]
  cases v with
  | nil =>
    have hD : runBytes ({ hdrState hd isr s (F ++ pendL pend) none with
          ps := PS.hdrOWS, stage := .headerValue, curHeader := c0 :: n' } : HttpMessage) []
        = { hdrState hd isr s (F ++ pendL pend) none with
            ps := PS.hdrOWS, stage := .headerValue, curHeader := c0 :: n' } := rfl
    rw [hD]
    show runBytes _ ['\r', '\n'] = _
    rw [runBytes_cons, runBytes_cons, runBytes_nil]
    simp [hdrState, stepByte, stepCore]
  | cons c1 v' =>
    have hc1 := hvc c1 (by simp)
    have hc1s : (c1 == ' ') = false := by
      rw [beq_eq_false_iff_ne]
      intro hcon
      rw [hcon] at hv0
      simp at hv0
    have hc1r := isValueChar_ne_cr c1 hc1
    rw [runBytes_cons]
    have hE : stepByte ({ hdrState hd isr s (F ++ pendL pend) none with
          ps := PS.hdrOWS, stage := .headerValue, curHeader := c0 :: n' } : HttpMessage) c1
        = { hdrState hd isr s (F ++ pendL pend) none with
            ps := PS.hdrValue, stage := .headerValue, curHeader := c0 :: n',
            curValue := some [c1] } := by
      simp [stepByte, stepCore, hdrState, hc1s, hc1r, hc1]
    rw [hE]
    have hF : runBytes ({ hdrState hd isr s (F ++ pendL pend) none with
          ps := PS.hdrValue, stage := .headerValue, curHeader := c0 :: n',
          curValue := some [c1] } : HttpMessage) v'
        = { hdrState hd isr s (F ++ pendL pend) none with
            ps := PS.hdrValue, stage := .headerValue, curHeader := c0 :: n',
            curValue := some ([c1] ++ v') } := by
      rw [run_hdrValue v' _ [c1] rfl rfl rfl (fun c hc => hvc c (by simp [hc]))]
    rw [hF]
    show runBytes _ ['\r', '\n'] = _
    rw [runBytes_cons, runBytes_cons, runBytes_nil]
    simp [hdrState, stepByte, stepCore]

/-- A render-safe header field: nonempty name of field-name characters, value
of value characters not starting with a space (leading OWS would be skipped
by the parser). -/
def ValidField (f : List Char × List Char) : Prop :=
  f.1 ≠ [] ∧ (∀ c ∈ f.1, isFieldNameChar c = true)
    ∧ (∀ c ∈ f.2, isValueChar c = true) ∧ f.2.head? ≠ some ' '

instance (f : List Char × List Char) : Decidable (ValidField f) := by
  unfold ValidField
  infer_instance

theorem commitPending_hdrState_ps (hd : HttpHeader) (isr : Bool) (s : HttpParserStage)
    (F : List (List Char × List Char)) (pend : Option (List Char × List Char)) (q : PS) :
    commitPending { hdrState hd isr s F pend with ps := q }
      = { hdrState hd isr s (F ++ pendL pend) none with ps := q } := by
  cases pend with
  | none => simp [commitPending, hdrState, pendL]
  | some p =>
    obtain ⟨pn, pv⟩ := p
    simp [commitPending, hdrState, pendL]

theorem run_hdr_fields (hd : HttpHeader) (isr : Bool)
    (fs : List (List Char × List Char)) : ∀ (s : HttpParserStage)
    (F : List (List Char × List Char)) (pend : Option (List Char × List Char)),
    (∀ f ∈ fs, ValidField f) →
    ∃ s' F' pend', runBytes (hdrState hd isr s F pend) (renderFields fs)
        = hdrState hd isr s' F' pend'
      ∧ F' ++ pendL pend' = (F ++ pendL pend) ++ fs := by
  induction fs with
  | nil =>
    intro s F pend _
    exact ⟨s, F, pend, rfl, by simp⟩
  | cons f fs ih =>
    intro s F pend hfs
    obtain ⟨n, v⟩ := f
    obtain ⟨hn, hnc, hvc, hv0⟩ := hfs (n, v) (by simp)
    have hr : renderFields ((n, v) :: fs)
        = (n ++ str ": " ++ v ++ crlf) ++ renderFields fs := rfl
    rw [hr, runBytes_append, run_hdr_line hd isr s F pend n v hn hnc hvc hv0]
    obtain ⟨s', F', pend', heq, hF⟩ :=
      ih .headerValue (F ++ pendL pend) (some (n, v)) (fun g hg => hfs g (by simp [hg]))
    refine ⟨s', F', pend', heq, ?_⟩
    rw [hF]
    simp [pendL]

theorem run_hdr_end (hd : HttpHeader) (isr : Bool) (s : HttpParserStage)
    (F : List (List Char × List Char)) (pend : Option (List Char × List Char)) :
    runBytes (hdrState hd isr s F pend) crlf
      = onHeadersDone { hdrState hd isr s F pend with ps := PS.finalLF } := by
  show runBytes _ ['\r', '\n'] = _
  rw [runBytes_cons, runBytes_cons, runBytes_nil]
  have h1 : stepByte (hdrState hd isr s F pend) '\r'
      = { hdrState hd isr s F pend with ps := PS.finalLF } := by
    simp [stepByte, stepCore, hdrState]
  rw [h1]
  simp [stepByte, stepCore, hdrState]

theorem onHeadersDone_hdrState_cl_zero (hd : HttpHeader) (isr : Bool)
    (s : HttpParserStage) (F : List (List Char × List Char))
    (pend : Option (List Char × List Char))
    (hte : findHeader (F ++ pendL pend) (str "transfer-encoding") = none)
    (hcl : findHeader (F ++ pendL pend) (str "content-length") = some (natDigits 0)) :
    onHeadersDone { hdrState hd isr s F pend with ps := PS.finalLF }
      = { hdrState hd isr .messageComplete (F ++ pendL pend) none with
          ps := PS.done, framing := .contentLength } := by
  have hd0 : digitsToNat (natDigits 0) = some 0 := digitsToNat_natDigits 0
  simp only [onHeadersDone, commitPending_hdrState_ps]
  simp only [hdrState] at hte hcl ⊢
  simp only [hte, hcl, hd0]
  simp [OnMessageComplete]

theorem onHeadersDone_hdrState_cl_pos (hd : HttpHeader) (isr : Bool)
    (s : HttpParserStage) (F : List (List Char × List Char))
    (pend : Option (List Char × List Char)) (k : Nat)
    (hte : findHeader (F ++ pendL pend) (str "transfer-encoding") = none)
    (hcl : findHeader (F ++ pendL pend) (str "content-length") = some (natDigits (k + 1))) :
    onHeadersDone { hdrState hd isr s F pend with ps := PS.finalLF }
      = { hdrState hd isr .headersComplete (F ++ pendL pend) none with
          ps := PS.bodyCL, framing := .contentLength, bodyRemaining := k + 1 } := by
  have hd0 : digitsToNat (natDigits (k + 1)) = some (k + 1) := digitsToNat_natDigits (k + 1)
  simp only [onHeadersDone, commitPending_hdrState_ps]
  simp only [hdrState] at hte hcl ⊢
  simp only [hte, hcl, hd0]

theorem run_request_line (method uri : List Char) (hm : method ≠ [])
    (hmc : ∀ c ∈ method, isMethodChar c = true)
    (huc : ∀ c ∈ uri, isUrlChar c = true) :
    runBytes initMsg (method ++ [' '] ++ uri ++ str " HTTP/1.1" ++ crlf)
      = hdrState ⟨method, uri, 0, []⟩ false .url [] none := by
  have hver : str " HTTP/1.1" = [' '] ++ str "HTTP/1.1" := rfl
  rw [hver, ← List.append_assoc, runBytes_append, runBytes_append, runBytes_append,
      runBytes_append, runBytes_append]
  have h1 : runBytes initMsg method = { initMsg with acc := method } := by
    rw [run_methTok method initMsg rfl rfl hmc]
    simp [initMsg]
  rw [h1]
  have hne : method.isEmpty = false := by
    cases method with
    | nil => exact absurd rfl hm
    | cons a l => rfl
  have h2 : runBytes ({ initMsg with acc := method } : HttpMessage) [' '] = { initMsg with header := { initMsg.header with method := method }, acc := [], ps := PS.reqUrl, stage := .url } := by
    rw [runBytes_cons, runBytes_nil]
    simp [stepByte, stepCore, initMsg, hne]
  rw [h2]
  have h3 : runBytes ({ initMsg with header := { initMsg.header with method := method }, acc := [], ps := PS.reqUrl, stage := .url } : HttpMessage) uri = { initMsg with header := { initMsg.header with method := method }, acc := uri, ps := PS.reqUrl, stage := .url } := by
    rw [run_reqUrl uri _ rfl rfl huc]
    simp
  rw [h3]
  have h4 : runBytes ({ initMsg with header := { initMsg.header with method := method }, acc := uri, ps := PS.reqUrl, stage := .url } : HttpMessage) [' '] = { initMsg with header := { initMsg.header with method := method, uri := uri }, acc := [], ps := PS.reqVer, stage := .url } := by
    rw [runBytes_cons, runBytes_nil]
    simp [stepByte, stepCore, initMsg]
  rw [h4]
  have h5 : runBytes ({ initMsg with header := { initMsg.header with method := method, uri := uri }, acc := [], ps := PS.reqVer, stage := .url } : HttpMessage) (str "HTTP/1.1") = { initMsg with header := { initMsg.header with method := method, uri := uri }, acc := [], ps := PS.reqVer, stage := .url } := by
    rw [run_reqVer_skip (str "HTTP/1.1") _ rfl rfl (by decide)]
  rw [h5]
  show runBytes _ ['\r', '\n'] = _
  rw [runBytes_cons, runBytes_cons, runBytes_nil]
  simp [stepByte, stepCore, initMsg, hdrState]

theorem run_status_line (code : Nat) :
    runBytes initMsg (str "HTTP/1.1 " ++ natDigits code ++ str " OK" ++ crlf)
      = hdrState ⟨[], [], code, []⟩ true .status [] none := by
  have hsplit : str "HTTP/1.1 " = ((str "HTTP" ++ ['/']) ++ str "1.1") ++ [' '] := rfl
  have hok : str " OK" = [' '] ++ str "OK" := rfl
  rw [hsplit, hok, ← List.append_assoc, runBytes_append, runBytes_append, runBytes_append,
      runBytes_append, runBytes_append, runBytes_append, runBytes_append]
  have h1 : runBytes initMsg (str "HTTP") = { initMsg with acc := str "HTTP" } := by
    rw [run_methTok (str "HTTP") initMsg rfl rfl (by decide)]
    simp [initMsg]
  rw [h1]
  have h2 : runBytes ({ initMsg with acc := str "HTTP" } : HttpMessage) ['/'] = { initMsg with isResponse := true, acc := [], ps := PS.respVer } := by
    rw [runBytes_cons, runBytes_nil]
    simp [stepByte, stepCore, initMsg]
  rw [h2]
  have h3 : runBytes ({ initMsg with isResponse := true, acc := [], ps := PS.respVer } : HttpMessage) (str "1.1") = { initMsg with isResponse := true, acc := [], ps := PS.respVer } := by
    rw [run_respVer_skip (str "1.1") _ rfl rfl (by decide)]
  rw [h3]
  have h4 : runBytes ({ initMsg with isResponse := true, acc := [], ps := PS.respVer } : HttpMessage) [' '] = { initMsg with isResponse := true, acc := [], ps := PS.respCode } := by
    rw [runBytes_cons, runBytes_nil]
    simp [stepByte, stepCore, initMsg]
  rw [h4]
  have h5 : runBytes ({ initMsg with isResponse := true, acc := [], ps := PS.respCode } : HttpMessage) (natDigits code) = { initMsg with header := { initMsg.header with statusCode := code }, isResponse := true, acc := [], ps := PS.respCode } := by
    rw [run_respCode (natDigits code) _ rfl rfl (natDigits_all_digits code)]
    have hv : digitsValFrom 0 (natDigits code) = code := natDigits_val code
    simp [initMsg, hv]
  rw [h5]
  have h6 : runBytes ({ initMsg with header := { initMsg.header with statusCode := code }, isResponse := true, acc := [], ps := PS.respCode } : HttpMessage) [' '] = { initMsg with header := { initMsg.header with statusCode := code }, isResponse := true, acc := [], ps := PS.respReason, stage := .status } := by
    rw [runBytes_cons, runBytes_nil]
    simp [stepByte, stepCore, initMsg]
  rw [h6]
  have h7 : runBytes ({ initMsg with header := { initMsg.header with statusCode := code }, isResponse := true, acc := [], ps := PS.respReason, stage := .status } : HttpMessage) (str "OK") = { initMsg with header := { initMsg.header with statusCode := code }, isResponse := true, acc := [], ps := PS.respReason, stage := .status } := by
    rw [run_respReason_skip (str "OK") _ rfl rfl (by decide)]
  rw [h7]
  show runBytes _ ['\r', '\n'] = _
  rw [runBytes_cons, runBytes_cons, runBytes_nil]
  simp [stepByte, stepCore, initMsg, hdrState]

theorem addHostIfAbsent_method (h : HttpHeader) (r : List Char) :
    (addHostIfAbsent h r).method = h.method := by
  unfold addHostIfAbsent
  split <;> rfl

theorem addHostIfAbsent_uri (h : HttpHeader) (r : List Char) :
    (addHostIfAbsent h r).uri = h.uri := by
  unfold addHostIfAbsent
  split <;> rfl

theorem addContentLength_method (h : HttpHeader) (len : Nat) :
    (addContentLength h len).method = h.method := by
  unfold addContentLength
  split <;> rfl

theorem addContentLength_uri (h : HttpHeader) (len : Nat) :
    (addContentLength h len).uri = h.uri := by
  unfold addContentLength
  split <;> rfl

theorem addContentLength_statusCode (h : HttpHeader) (len : Nat) :
    (addContentLength h len).statusCode = h.statusCode := by
  unfold addContentLength
  split <;> rfl

theorem addContentLength_fields_none (h : HttpHeader) (len : Nat)
    (hcl : findHeader h.fields (str "content-length") = none)
    (hte : findHeader h.fields (str "transfer-encoding") = none) :
    (addContentLength h len).fields
      = h.fields ++ [(str "Content-Length", natDigits len)] := by
  unfold addContentLength
  rw [if_pos]
  simp [hcl, hte]

theorem addHostIfAbsent_fields (h : HttpHeader) (r : List Char) :
    (addHostIfAbsent h r).fields
      = h.fields ++ (if (findHeader h.fields (str "host")).isNone
          then [(str "Host", r)] else []) := by
  unfold addHostIfAbsent
  split <;> simp_all

/-- Running header lines, the blank line and a content-length body from the
post-start-line state: the fields are parsed back verbatim and the body bytes
are accumulated, ending in `messageComplete`. -/
theorem run_message (hd : HttpHeader) (isr : Bool) (s0 : HttpParserStage)
    (fs : List (List Char × List Char)) (content : List Char)
    (hfs : ∀ f ∈ fs, ValidField f)
    (hte : findHeader fs (str "transfer-encoding") = none)
    (hcl : findHeader fs (str "content-length") = some (natDigits content.length)) :
    runBytes (runBytes (runBytes (hdrState hd isr s0 [] none) (renderFields fs)) crlf) content
      = { hdrState hd isr .messageComplete fs none with ps := PS.done, framing := .contentLength, body := content, produced := content } := by
  obtain ⟨s', F', pend', heq, hF⟩ := run_hdr_fields hd isr fs s0 [] none hfs
  have hF' : F' ++ pendL pend' = fs := by simpa [pendL] using hF
  rw [heq, run_hdr_end]
  cases hn : content.length with
  | zero =>
    have hc0 : content = [] := List.length_eq_zero.mp hn
    have hcl0 : findHeader (F' ++ pendL pend') (str "content-length")
        = some (natDigits 0) := hF' ▸ (hn ▸ hcl)
    have hte0 : findHeader (F' ++ pendL pend') (str "transfer-encoding")
        = none := hF' ▸ hte
    rw [onHeadersDone_hdrState_cl_zero hd isr s' F' pend' hte0 hcl0, hc0, runBytes_nil, hF']
    simp [hdrState]
  | succ k =>
    have hcl1 : findHeader (F' ++ pendL pend') (str "content-length")
        = some (natDigits (k + 1)) := hF' ▸ (hn ▸ hcl)
    have hte1 : findHeader (F' ++ pendL pend') (str "transfer-encoding")
        = none := hF' ▸ hte
    rw [onHeadersDone_hdrState_cl_pos hd isr s' F' pend' k hte1 hcl1]
    have hcne : content ≠ [] := by
      intro h
      rw [h] at hn
      simp at hn
    rw [run_body_cl content _ rfl rfl rfl (by simp [hdrState, hn]) hcne, hF']
    simp [hdrState]

theorem hostField_valid (r : List Char) (hrv : ∀ c ∈ r, isValueChar c = true)
    (hr0 : r.head? ≠ some ' ') : ValidField (str "Host", r) := by
  refine ⟨?_, ?_, hrv, hr0⟩
  · show str "Host" ≠ []
    decide
  · show ∀ c ∈ str "Host", isFieldNameChar c = true
    decide

theorem clField_valid (len : Nat) : ValidField (str "Content-Length", natDigits len) := by
  refine ⟨?_, ?_, ?_, ?_⟩
  · show str "Content-Length" ≠ []
    decide
  · show ∀ c ∈ str "Content-Length", isFieldNameChar c = true
    decide
  · intro c hc
    exact isDigit_isValueChar c (natDigits_all_digits len c hc)
  · cases hnd : natDigits len with
    | nil => exact absurd hnd (natDigits_ne_nil len)
    | cons a l =>
      have ha : a.isDigit = true := natDigits_all_digits len a (by rw [hnd]; simp)
      simp only [List.head?_cons, ne_eq, Option.some.injEq]
      intro hco
      rw [hco] at ha
      exact absurd ha (by decide)

theorem parse_request_core (header : HttpHeader) (remote content : List Char)
    (hm : header.method ≠ []) (hmc : ∀ c ∈ header.method, isMethodChar c = true)
    (huc : ∀ c ∈ header.uri, isUrlChar c = true)
    (hfsE : ∀ f ∈ (addContentLength (addHostIfAbsent header remote) content.length).fields, ValidField f)
    (hteE : findHeader (addContentLength (addHostIfAbsent header remote) content.length).fields (str "transfer-encoding") = none)
    (hclE : findHeader (addContentLength (addHostIfAbsent header remote) content.length).fields (str "content-length") = some (natDigits content.length)) :
    runBytes initMsg (MakeRawHttpRequest header remote content).1
      = { hdrState ⟨header.method, header.uri, 0, []⟩ false .messageComplete (addContentLength (addHostIfAbsent header remote) content.length).fields none with ps := PS.done, framing := .contentLength, body := content, produced := content } := by
  have hout : (MakeRawHttpRequest header remote content).1
      = ((((header.method ++ [' ']) ++ header.uri) ++ str " HTTP/1.1") ++ crlf)
          ++ renderFields (addContentLength (addHostIfAbsent header remote) content.length).fields ++ crlf ++ content := by
    simp only [MakeRawHttpRequest]
    rw [addContentLength_method, addHostIfAbsent_method,
        addContentLength_uri, addHostIfAbsent_uri]
  rw [hout, runBytes_append, runBytes_append, runBytes_append,
      run_request_line header.method header.uri hm hmc huc,
      run_message _ false .url _ content hfsE hteE hclE]

theorem parse_response_core (header : HttpHeader) (content : List Char)
    (hfsE : ∀ f ∈ (addContentLength header content.length).fields, ValidField f)
    (hteE : findHeader (addContentLength header content.length).fields (str "transfer-encoding") = none)
    (hclE : findHeader (addContentLength header content.length).fields (str "content-length") = some (natDigits content.length)) :
    runBytes initMsg (MakeRawHttpResponse header content).1
      = { hdrState ⟨[], [], header.statusCode, []⟩ true .messageComplete (addContentLength header content.length).fields none with ps := PS.done, framing := .contentLength, body := content, produced := content } := by
  have hout : (MakeRawHttpResponse header content).1
      = (((str "HTTP/1.1 " ++ natDigits header.statusCode) ++ str " OK") ++ crlf)
          ++ renderFields (addContentLength header content.length).fields ++ crlf ++ content := by
    simp only [MakeRawHttpResponse]
    rw [addContentLength_statusCode]
  rw [hout, runBytes_append, runBytes_append, runBytes_append,
      run_status_line header.statusCode,
      run_message _ true .status _ content hfsE hteE hclE]

theorem extended_fields_facts (base ext : List (List Char × List Char)) (len : Nat)
    (hcl : findHeader base (str "content-length") = none)
    (hte : findHeader base (str "transfer-encoding") = none)
    (hclx : findHeader ext (str "content-length") = none)
    (htex : findHeader ext (str "transfer-encoding") = none)
    (hfsb : ∀ f ∈ base, ValidField f) (hfsx : ∀ f ∈ ext, ValidField f) :
    findHeader ((base ++ ext) ++ [(str "Content-Length", natDigits len)]) (str "transfer-encoding") = none
    ∧ findHeader ((base ++ ext) ++ [(str "Content-Length", natDigits len)]) (str "content-length") = some (natDigits len)
    ∧ ∀ f ∈ (base ++ ext) ++ [(str "Content-Length", natDigits len)], ValidField f := by
  have hclN : lowerEq (str "Content-Length") (str "transfer-encoding") = false := by decide
  have hclY : lowerEq (str "Content-Length") (str "content-length") = true := by decide
  refine ⟨?_, ?_, ?_⟩
  · rw [findHeader_append_none _ _ _ (by rw [findHeader_append_none _ _ _ hte]; exact htex)]
    simp [findHeader, hclN]
  · rw [findHeader_append_none _ _ _ (by rw [findHeader_append_none _ _ _ hcl]; exact hclx)]
    simp [findHeader, hclY]
  · intro f hf
    rcases List.mem_append.mp hf with hf | hf
    · rcases List.mem_append.mp hf with hf | hf
      · exact hfsb f hf
      · exact hfsx f hf
    · have hfe : f = (str "Content-Length", natDigits len) := by simpa using hf
      rw [hfe]
      exact clField_valid len

theorem ParseFromArray_initMsg_run (data : List Char) (hne : data ≠ [])
    (herr : (runBytes initMsg data).err = false) :
    ParseFromArray initMsg data
      = ({ runBytes initMsg data with parsedLength := data.length }, some data.length) := by
  have hie : data.isEmpty = false := by
    cases data with
    | nil => exact absurd rfl hne
    | cons a l => rfl
  unfold ParseFromArray
  rw [if_neg (by decide), if_neg (by decide), if_neg (by simp [hie])]
  dsimp only
  rw [if_neg (by simp [herr])]
  simp [initMsg]

theorem c4_request_part (header : HttpHeader) (remote content : List Char)
    (ext : List (List Char × List Char))
    (hm : header.method ≠ []) (hmc : ∀ c ∈ header.method, isMethodChar c = true)
    (huc : ∀ c ∈ header.uri, isUrlChar c = true)
    (hext : ext = [] ∨ ext = [(str "Host", remote)])
    (hEf : (addContentLength (addHostIfAbsent header remote) content.length).fields = (header.fields ++ ext) ++ [(str "Content-Length", natDigits content.length)])
    (hteX : findHeader ((header.fields ++ ext) ++ [(str "Content-Length", natDigits content.length)]) (str "transfer-encoding") = none)
    (hclX : findHeader ((header.fields ++ ext) ++ [(str "Content-Length", natDigits content.length)]) (str "content-length") = some (natDigits content.length))
    (hfsX : ∀ f ∈ (header.fields ++ ext) ++ [(str "Content-Length", natDigits content.length)], ValidField f) :
    (ParseFromArray initMsg (MakeRawHttpRequest header remote content).1).2
        = some (MakeRawHttpRequest header remote content).1.length
    ∧ (ParseFromArray initMsg (MakeRawHttpRequest header remote content).1).1.stage = .messageComplete
    ∧ (ParseFromArray initMsg (MakeRawHttpRequest header remote content).1).1.err = false
    ∧ (ParseFromArray initMsg (MakeRawHttpRequest header remote content).1).1.header.method = header.method
    ∧ (ParseFromArray initMsg (MakeRawHttpRequest header remote content).1).1.header.uri = header.uri
    ∧ (ParseFromArray initMsg (MakeRawHttpRequest header remote content).1).1.header.fields = (MakeRawHttpRequest header remote content).2.1.fields
    ∧ (ParseFromArray initMsg (MakeRawHttpRequest header remote content).1).1.body = content
    ∧ ∃ hostL, (hostL = [] ∨ hostL = [(str "Host", remote)])
        ∧ (MakeRawHttpRequest header remote content).2.1.fields = (header.fields ++ hostL) ++ [(str "Content-Length", natDigits content.length)] := by
  have hfsE : ∀ f ∈ (addContentLength (addHostIfAbsent header remote) content.length).fields, ValidField f := by
    rw [hEf]
    exact hfsX
  have hteE : findHeader (addContentLength (addHostIfAbsent header remote) content.length).fields (str "transfer-encoding") = none := by
    rw [hEf]
    exact hteX
  have hclE : findHeader (addContentLength (addHostIfAbsent header remote) content.length).fields (str "content-length") = some (natDigits content.length) := by
    rw [hEf]
    exact hclX
  have hrun := parse_request_core header remote content hm hmc huc hfsE hteE hclE
  have houtne : (MakeRawHttpRequest header remote content).1 ≠ [] := by
    intro hemp
    rw [hemp, runBytes_nil] at hrun
    have := congrArg HttpMessage.stage hrun
    simp [initMsg, hdrState] at this
  have hpa := ParseFromArray_initMsg_run _ houtne (by rw [hrun]; rfl)
  rw [hpa, hrun]
  exact ⟨rfl, rfl, rfl, rfl, rfl, rfl, rfl, ext, hext, hEf⟩

theorem c4_response_part (header : HttpHeader) (content : List Char)
    (hEf : (addContentLength header content.length).fields = (header.fields ++ []) ++ [(str "Content-Length", natDigits content.length)])
    (hteX : findHeader ((header.fields ++ []) ++ [(str "Content-Length", natDigits content.length)]) (str "transfer-encoding") = none)
    (hclX : findHeader ((header.fields ++ []) ++ [(str "Content-Length", natDigits content.length)]) (str "content-length") = some (natDigits content.length))
    (hfsX : ∀ f ∈ (header.fields ++ []) ++ [(str "Content-Length", natDigits content.length)], ValidField f) :
    (ParseFromArray initMsg (MakeRawHttpResponse header content).1).2
        = some (MakeRawHttpResponse header content).1.length
    ∧ (ParseFromArray initMsg (MakeRawHttpResponse header content).1).1.stage = .messageComplete
    ∧ (ParseFromArray initMsg (MakeRawHttpResponse header content).1).1.err = false
    ∧ (ParseFromArray initMsg (MakeRawHttpResponse header content).1).1.header.statusCode = header.statusCode
    ∧ (ParseFromArray initMsg (MakeRawHttpResponse header content).1).1.header.fields = (MakeRawHttpResponse header content).2.1.fields
    ∧ (ParseFromArray initMsg (MakeRawHttpResponse header content).1).1.body = content
    ∧ (MakeRawHttpResponse header content).2.1.fields = header.fields ++ [(str "Content-Length", natDigits content.length)] := by
  have hfsE : ∀ f ∈ (addContentLength header content.length).fields, ValidField f := by
    rw [hEf]
    exact hfsX
  have hteE : findHeader (addContentLength header content.length).fields (str "transfer-encoding") = none := by
    rw [hEf]
    exact hteX
  have hclE : findHeader (addContentLength header content.length).fields (str "content-length") = some (natDigits content.length) := by
    rw [hEf]
    exact hclX
  have hrun := parse_response_core header content hfsE hteE hclE
  have houtne : (MakeRawHttpResponse header content).1 ≠ [] := by
    intro hemp
    rw [hemp, runBytes_nil] at hrun
    have := congrArg HttpMessage.stage hrun
    simp [initMsg, hdrState] at this
  have hpa := ParseFromArray_initMsg_run _ houtne (by rw [hrun]; rfl)
  rw [hpa, hrun]
  refine ⟨rfl, rfl, rfl, rfl, rfl, rfl, ?_⟩
  show (addContentLength header content.length).fields = _
  rw [hEf]
  simp

/-- C4: round trip through the builders and the parser.  For every header
(with a wellformed method/URI/field list), remote endpoint and content, and no
declared body-length strategy, serializing with `MakeRawHttpRequest` or
`MakeRawHttpResponse` and parsing the produced bytes back with
`ParseFromArray` consumes everything, completes the message, and reproduces
the method, URI, status code, header fields and body exactly — the parsed
fields equal the original fields plus only the injected ones (`Host` derived
from the remote side when absent, and `Content-Length`). -/
theorem c4_round_trip (header : HttpHeader) (remote content : List Char)
    (hm : header.method ≠ []) (hmc : ∀ c ∈ header.method, isMethodChar c = true)
    (huc : ∀ c ∈ header.uri, isUrlChar c = true)
    (hfs : ∀ f ∈ header.fields, ValidField f)
    (hrv : ∀ c ∈ remote, isValueChar c = true) (hr0 : remote.head? ≠ some ' ')
    (hcl : findHeader header.fields (str "content-length") = none)
    (hte : findHeader header.fields (str "transfer-encoding") = none) :
    ((ParseFromArray initMsg (MakeRawHttpRequest header remote content).1).2
        = some (MakeRawHttpRequest header remote content).1.length
      ∧ (ParseFromArray initMsg (MakeRawHttpRequest header remote content).1).1.stage = .messageComplete
      ∧ (ParseFromArray initMsg (MakeRawHttpRequest header remote content).1).1.err = false
      ∧ (ParseFromArray initMsg (MakeRawHttpRequest header remote content).1).1.header.method = header.method
      ∧ (ParseFromArray initMsg (MakeRawHttpRequest header remote content).1).1.header.uri = header.uri
      ∧ (ParseFromArray initMsg (MakeRawHttpRequest header remote content).1).1.header.fields = (MakeRawHttpRequest header remote content).2.1.fields
      ∧ (ParseFromArray initMsg (MakeRawHttpRequest header remote content).1).1.body = content
      ∧ ∃ hostL, (hostL = [] ∨ hostL = [(str "Host", remote)])
          ∧ (MakeRawHttpRequest header remote content).2.1.fields = (header.fields ++ hostL) ++ [(str "Content-Length", natDigits content.length)])
    ∧ ((ParseFromArray initMsg (MakeRawHttpResponse header content).1).2
        = some (MakeRawHttpResponse header content).1.length
      ∧ (ParseFromArray initMsg (MakeRawHttpResponse header content).1).1.stage = .messageComplete
      ∧ (ParseFromArray initMsg (MakeRawHttpResponse header content).1).1.err = false
      ∧ (ParseFromArray initMsg (MakeRawHttpResponse header content).1).1.header.statusCode = header.statusCode
      ∧ (ParseFromArray initMsg (MakeRawHttpResponse header content).1).1.header.fields = (MakeRawHttpResponse header content).2.1.fields
      ∧ (ParseFromArray initMsg (MakeRawHttpResponse header content).1).1.body = content
      ∧ (MakeRawHttpResponse header content).2.1.fields = header.fields ++ [(str "Content-Length", natDigits content.length)]) := by
  constructor
  · by_cases hh : (findHeader header.fields (str "host")).isNone
    · have h1f : (addHostIfAbsent header remote).fields
          = header.fields ++ [(str "Host", remote)] := by
        rw [addHostIfAbsent_fields]
        simp [hh]
      have hhcl : findHeader [(str "Host", remote)] (str "content-length") = none := by
        have hl : lowerEq (str "Host") (str "content-length") = false := by decide
        simp [findHeader, hl]
      have hhte : findHeader [(str "Host", remote)] (str "transfer-encoding") = none := by
        have hl : lowerEq (str "Host") (str "transfer-encoding") = false := by decide
        simp [findHeader, hl]
      obtain ⟨hteX, hclX, hfsX⟩ := extended_fields_facts header.fields [(str "Host", remote)]
        content.length hcl hte hhcl hhte hfs
        (by
          intro f hf
          have hfe : f = (str "Host", remote) := by simpa using hf
          rw [hfe]
          exact hostField_valid remote hrv hr0)
      have hacl : findHeader (addHostIfAbsent header remote).fields (str "content-length") = none := by
        rw [h1f, findHeader_append_none _ _ _ hcl]
        exact hhcl
      have hate : findHeader (addHostIfAbsent header remote).fields (str "transfer-encoding") = none := by
        rw [h1f, findHeader_append_none _ _ _ hte]
        exact hhte
      have hEf : (addContentLength (addHostIfAbsent header remote) content.length).fields
          = (header.fields ++ [(str "Host", remote)]) ++ [(str "Content-Length", natDigits content.length)] := by
        rw [addContentLength_fields_none _ _ hacl hate, h1f]
      exact c4_request_part header remote content [(str "Host", remote)] hm hmc huc
        (Or.inr rfl) hEf hteX hclX hfsX
    · have h1f : (addHostIfAbsent header remote).fields = header.fields := by
        rw [addHostIfAbsent_fields]
        simp [hh]
      obtain ⟨hteX, hclX, hfsX⟩ := extended_fields_facts header.fields []
        content.length hcl hte rfl rfl hfs (by simp)
      have hacl : findHeader (addHostIfAbsent header remote).fields (str "content-length") = none := by
        rw [h1f]
        exact hcl
      have hate : findHeader (addHostIfAbsent header remote).fields (str "transfer-encoding") = none := by
        rw [h1f]
        exact hte
      have hEf : (addContentLength (addHostIfAbsent header remote) content.length).fields
          = (header.fields ++ []) ++ [(str "Content-Length", natDigits content.length)] := by
        rw [addContentLength_fields_none _ _ hacl hate, h1f]
        simp
      exact c4_request_part header remote content [] hm hmc huc (Or.inl rfl) hEf hteX hclX hfsX
  · obtain ⟨hteX, hclX, hfsX⟩ := extended_fields_facts header.fields []
      content.length hcl hte rfl rfl hfs (by simp)
    have hEf : (addContentLength header content.length).fields
        = (header.fields ++ []) ++ [(str "Content-Length", natDigits content.length)] := by
      rw [addContentLength_fields_none _ _ hcl hte]
      simp
    exact c4_response_part header content hEf hteX hclX hfsX

set_option maxRecDepth 10000 in
/-- Witness for C4: the round trip on a concrete GET request with one custom
field and a concrete 200 response, with two-byte content. -/
theorem c4_round_trip_witness :
    (ParseFromArray initMsg (MakeRawHttpRequest ⟨str "GET", str "/x", 200, [(str "A", str "b")]⟩ (str "h1") (str "hi")).1).1.body = str "hi"
    ∧ (ParseFromArray initMsg (MakeRawHttpResponse ⟨str "GET", str "/x", 200, [(str "A", str "b")]⟩ (str "hi")).1).1.header.statusCode = 200 := by
  have h := c4_round_trip ⟨str "GET", str "/x", 200, [(str "A", str "b")]⟩ (str "h1") (str "hi")
    (by decide) (by decide) (by decide) (by decide) (by decide) (by decide) (by decide) (by decide)
  exact ⟨h.1.2.2.2.2.2.2.1, h.2.2.2.2.1⟩

end Brpc
